import Mathlib

/-!
Verification development for the quantum-node core of this repository:
the circuit tracer, the per-parameter gradient-method selector, the
parameter-shift / finite-difference gradient engine of
`pennylane/qnode.py`, and the execution lifecycle of
`pennylane/_device.py`.

Modelling conventions, used throughout:

* Machine floats are modelled as `ℚ`.  The only irrational constant the
  source uses is `np.pi / 2` (the default parameter-shift); every claim
  treats it symbolically, so it is passed around as an abstract rational
  `piHalf`.
* The backend device (out of scope of the core, reached through
  `Device.execute`) is abstracted as a function `F` from the resolved
  gate queue and resolved observable queue to a measurement vector;
  `none` models an exception raised by the device.  `F` sees exactly the
  data the device receives from the core: name, wires, resolved
  parameters, constant matrix parameter, return type, sample count.
* Python raising an exception is modelled as an `Option`/`none` result;
  the mutable `QNode` attributes (`self.ops` / `self.queue` / `self.ev`,
  `self.cache`) are threaded explicitly as state.  `self.ops` is
  `self.queue + self.ev` (the same objects), so it is modelled as one
  list `ops` with the gate prefix length `queue_len`; `self.queue` and
  `self.ev` are its `take`/`drop` views.
* `QNode.construct` re-executes the user's Python builder, which cannot
  be embedded; evaluation functions therefore model the post-construction
  behaviour of `QNode.evaluate` (device checks plus execution of the
  traced tape).  The retrace *decision* of `QNode.evaluate`
  (qnode.py lines 535-555) is modelled separately and exactly by
  `evaluate_retraces`.
* Functions that perform circuit evaluations also return the list of
  parameter vectors they passed to `QNode.evaluate`, in call order, so
  that claims about how often a point is evaluated can be stated.
-/

namespace PL

/-- Modelled from the spec (§3, §4.1): `pennylane/variable.py` is not part of
the sources under review.  A `Variable` (ParameterSlot) carries a slot index
`idx`, an optional keyword `name`, and a multiplicative scale `mult`;
it resolves to `free_param_values[idx] * mult` when `name` is absent and to
`kwarg_values[name][idx] * mult` otherwise. -/
structure Variable where
  idx : Nat
  name : Option String
  mult : ℚ
deriving DecidableEq, Repr

/-- One entry of `op.params`: a plain number or a `Variable`. -/
inductive Param where
  | const (x : ℚ)
  | var (v : Variable)
deriving DecidableEq, Repr

/-- `pennylane.operation` return types `Expectation`, `Variance`, `Sample`. -/
inductive ReturnType where
  | expectation
  | variance
  | sample
deriving DecidableEq, Repr

/-- Gradient-method tags `'A'`, `'A2'`, `'F'`; the Python value `None` is the
surrounding `Option`'s `none`. -/
inductive GradMethod where
  | A
  | A2
  | F
deriving DecidableEq, Repr

/-- `self.type` of a constructed QNode. -/
inductive CircuitKind where
  | qubit
  | cv
deriving DecidableEq, Repr

/-- An operation or observable on the tape.  Fields mirror the capability
descriptor consumed from `pennylane.operation` (not under review; spec §4.2):
`grad_method`, `grad_recipe`, `is_cv` (`isinstance(op, CV)`),
`supports_heisenberg`, `is_observable` (`isinstance(op, Observable)`),
`return_type`, `ev_order`, `num_samples`.  A constant matrix parameter (the
Hermitian/PolyXP observable parameter) is kept in `mat` rather than inside
`params`, since `params` entries are scalar-valued here; `hrep` stands for the
first-order Heisenberg representation `_heisenberg_rep` of a CV observable. -/
structure Operation where
  name : String
  wires : List Nat
  params : List Param
  grad_method : Option GradMethod
  grad_recipe : List (Option (ℚ × ℚ))
  is_cv : Bool
  supports_heisenberg : Bool
  is_observable : Bool
  return_type : Option ReturnType
  ev_order : Option Nat
  num_samples : Option Nat
  mat : Option (List (List ℚ))
  hrep : List ℚ
deriving DecidableEq, Repr

/-- The data about one operation that the device receives from the core
(`op.name`, `op.wires`, the resolved `op.parameters`, its constant matrix
parameter, `op.return_type`, `op.num_samples`). -/
structure ResolvedOp where
  name : String
  wires : List Nat
  par : List ℚ
  mat : Option (List (List ℚ))
  return_type : Option ReturnType
  num_samples : Option Nat
deriving DecidableEq, Repr

/-- The constructed state of a `QNode` that the gradient engine reads and
mutates: `ops = queue + ev` with `queue_len` gates first, the reverse index
`variable_ops`, the selector result `grad_method_for_par` (`grad_methods`),
`num_variables`, `num_wires`, the `cache` flag and the circuit `type`. -/
structure QNodeState where
  ops : List Operation
  queue_len : Nat
  variable_ops : List (Nat × List (Nat × Nat))
  grad_methods : List (Nat × Option GradMethod)
  num_variables : Nat
  num_wires : Nat
  cache : Bool
  ctype : CircuitKind
deriving DecidableEq, Repr

/-- The gate prefix `self.queue` of the combined tape. -/
def gateOps (q : QNodeState) : List Operation :=
  q.ops.take q.queue_len

/-- The returned-observables suffix `self.ev` of the combined tape. -/
def evOps (q : QNodeState) : List Operation :=
  q.ops.drop q.queue_len

/-- `self.variable_ops[k]`, as an association-list lookup. -/
def lookupVarOps (q : QNodeState) (k : Nat) : Option (List (Nat × Nat)) :=
  (q.variable_ops.find? (fun kv => kv.1 == k)).map (·.2)

/-- `self.grad_method_for_par[k]`, as an association-list lookup. -/
def lookupGrad (q : QNodeState) (k : Nat) : Option (Option GradMethod) :=
  (q.grad_methods.find? (fun kv => kv.1 == k)).map (·.2)

/-! ### Vector and matrix helpers (numpy arrays over `ℚ`) -/

/-- Zero vector, the broadcast value of the scalar `0.0`. -/
def vzero (n : Nat) : List ℚ :=
  List.replicate n 0

/-- Elementwise sum of two numpy vectors. -/
def vadd (a b : List ℚ) : List ℚ :=
  List.zipWith (· + ·) a b

/-- Elementwise difference of two numpy vectors. -/
def vsub (a b : List ℚ) : List ℚ :=
  List.zipWith (· - ·) a b

/-- Elementwise product of two numpy vectors. -/
def vmul (a b : List ℚ) : List ℚ :=
  List.zipWith (· * ·) a b

/-- Scalar times vector. -/
def vscale (c : ℚ) (a : List ℚ) : List ℚ :=
  a.map (fun x => c * x)

/-- `np.where(mask, a, b)`, elementwise selection. -/
def whereVec (mask : List Bool) (a b : List ℚ) : List ℚ :=
  (mask.zip (a.zip b)).map (fun mab => if mab.1 then mab.2.1 else mab.2.2)

/-- Matrix product of row-major rational matrices. -/
def matMul (A B : List (List ℚ)) : List (List ℚ) :=
  A.map (fun row => (List.range (B.headD []).length).map
    (fun j => ((row.zip B).map (fun rb => rb.1 * (rb.2.getD j 0))).sum))

/-- `np.identity n`. -/
def matId (n : Nat) : List (List ℚ) :=
  (List.range n).map (fun i => (List.range n).map (fun j => if i = j then (1 : ℚ) else 0))

/-- `np.kron(A, A.T)` for a row vector `A`: the outer product used to square a
first-order CV observable. -/
def outerProd (a : List ℚ) : List (List ℚ) :=
  a.map (fun x => a.map (fun y => x * y))

/-! ### Parameter resolution (spec §4.1) -/

/-- Resolution of one `op.params` entry against the free-parameter binding
`free` and the keyword binding `kw` (spec §4.1): a slot reads
`free[idx] * mult`, a keyword slot reads `kw name idx * mult`. -/
def resolveParam (kw : String → Nat → ℚ) (free : List ℚ) : Param → ℚ
  | Param.const x => x
  | Param.var v =>
    match v.name with
    | none => free.getD v.idx 0 * v.mult
    | some s => kw s v.idx * v.mult

/-- The device-visible data of one operation under a binding. -/
def resolveOp (kw : String → Nat → ℚ) (free : List ℚ) (op : Operation) : ResolvedOp :=
  { name := op.name
    wires := op.wires
    par := op.params.map (resolveParam kw free)
    mat := op.mat
    return_type := op.return_type
    num_samples := op.num_samples }

/-- The resolved combined tape. -/
def resolvedTape (kw : String → Nat → ℚ) (free : List ℚ) (q : QNodeState) : List ResolvedOp :=
  q.ops.map (resolveOp kw free)

/-! ### `QNode.evaluate` (qnode.py lines 578-597, post-construction part) -/

/-- Decides whether a list of wire indices contains a duplicate. -/
def hasDupWire : List Nat → Bool
  | [] => false
  | w :: ws => ws.contains w || hasDupWire ws

/-- The check of qnode.py lines 581-583: no wire measured by more than one
returned observable. -/
def measuredWiresOk (q : QNodeState) : Bool :=
  !hasDupWire ((evOps q).flatMap (fun op => op.wires))

/-- The check of qnode.py lines 585-594: every wire of every operation lies in
`[0, num_wires)` (wires are `Nat` here, so only the upper bound remains). -/
def wiresInRange (q : QNodeState) : Bool :=
  q.ops.all (fun op => op.wires.all (fun w => w < q.num_wires))

/-- Both run-time checks of `QNode.evaluate`. -/
def wireChecksOk (q : QNodeState) : Bool :=
  measuredWiresOk q && wiresInRange q

/-- `QNode.evaluate` after construction: run the wire checks, then hand the
resolved gate queue and resolved observables to the device `F`
(`self.device.execute(self.queue, self.ev, self.variable_ops)`); `none` is a
raised exception.  The retrace decision at its head is modelled separately by
`evaluate_retraces`; `output_conversion` is the identity on the result
vector. -/
def qnodeEvaluate (F : List ResolvedOp → List ResolvedOp → Option (List ℚ))
    (kw : String → Nat → ℚ) (q : QNodeState) (free : List ℚ) : Option (List ℚ) :=
  if wireChecksOk q then
    F ((resolvedTape kw free q).take q.queue_len) ((resolvedTape kw free q).drop q.queue_len)
  else none

/-! ### Nested argument structures and the retrace decision (claim C2) -/

/-- Modelled from the spec (§9, flatten/unflatten): `pennylane.utils._flatten`
is not part of the sources under review.  A nested argument structure is a
tree of reals over ordered sequences. -/
inductive Nested where
  | leaf (x : ℚ)
  | seq (children : List Nested)
deriving Repr

mutual

/-- `len(list(_flatten(args)))`: the flattened length of a nested argument
structure. -/
def flatLen : Nested → Nat
  | Nested.leaf _ => 1
  | Nested.seq l => flatLenList l

/-- Flattened length of a list of nested structures. -/
def flatLenList : List Nested → Nat
  | [] => 0
  | a :: l => flatLen a + flatLenList l

end

/-- The retrace decision at the head of `QNode.evaluate`
(qnode.py lines 535-555): `construct` runs iff (`self.ops` is empty or caching
is off) and, when construction has happened before (`num_variables` set), the
flattened length of the arguments equals `num_variables`. -/
def evaluate_retraces (ops_empty : Bool) (cache : Bool) (num_variables : Option Nat)
    (args : Nested) : Bool :=
  if ops_empty || !cache then
    match num_variables with
    | some n => flatLen args == n
    | none => true
  else false

/-- The retrace condition as claim C2 states it: caching disabled, or the flat
argument length differs from the recorded number of variables. -/
def claimedRetraceCond (cache : Bool) (n : Nat) (args : Nested) : Bool :=
  !cache || !(flatLen args == n)

/-! ### The tracer: `QNode._append_op` (claim C7) -/

/-- `QNode._append_op` (qnode.py lines 257-273): observables with a
`return_type` go to the `ev` buffer, observables without one go to the gate
queue, and a non-observable raises `QuantumFunctionError` when the `ev` buffer
is non-empty.  `none` is the raised error. -/
def append_op (queue ev : List Operation) (op : Operation) :
    Option (List Operation × List Operation) :=
  if op.is_observable then
    match op.return_type with
    | none => some (queue ++ [op], ev)
    | some _ => some (queue, ev ++ [op])
  else
    if ev.isEmpty then some (queue ++ [op], ev)
    else none

/-! ### `QNode.construct` return validation (claim C8) -/

/-- The possible shapes of the builder's return value, as `construct`
inspects them: a single object, a Python sequence, or anything else. -/
inductive QfuncReturn where
  | single (o : Operation)
  | seq (l : List Operation)
  | other

/-- The return validation of `QNode.construct` (qnode.py lines 351-388): the
builder must return one observable or a non-empty sequence of observables;
every returned observable must carry a `return_type`; and the returned tuple
must equal the queued `ev` buffer elementwise (Python `==` on these objects is
identity; distinct Lean values stand for distinct objects).  `some` returns
the validated observable tuple, `none` is the raised
`QuantumFunctionError`. -/
def construct_validate (ev : List Operation) (res : QfuncReturn) : Option (List Operation) :=
  let tup? : Option (List Operation) :=
    match res with
    | QfuncReturn.single o => if o.is_observable then some [o] else none
    | QfuncReturn.seq l =>
      if !l.isEmpty && l.all (fun o => o.is_observable) then some l else none
    | QfuncReturn.other => none
  match tup? with
  | none => none
  | some tup =>
    if tup.any (fun o => o.return_type == none) then none
    else if tup == ev then some tup else none

/-- The acceptance condition as claim C8 words it: the return value is a
single measured observable that is exactly the queued buffer, or a non-empty
sequence of measured observables equal to the queued buffer elementwise and
in order; anything else — a non-observable value, an empty sequence, a
missing return type, a membership or order mismatch — is rejected. -/
def claimedAccept (ev : List Operation) (res : QfuncReturn) : Bool :=
  match res with
  | QfuncReturn.single o =>
    o.is_observable && o.return_type != none && ev == [o]
  | QfuncReturn.seq l =>
    !l.isEmpty && l.all (fun o => o.is_observable && o.return_type != none) && l == ev
  | QfuncReturn.other => false

/-! ### The construction context slot (claim C9) -/

/-- The context phase of `QNode.construct` (qnode.py lines 330-346):
`QNode._current_context` is the class-level slot, holding the identity of the
active tracer; `build` is the outcome of running the user's builder (`none` if
the builder raised).  Result: the slot after the phase, and `none` when
re-entry raised `QuantumFunctionError`, otherwise `some build` (the builder's
outcome, propagated by the `try/finally`). -/
def construct_context {β : Type} (ctx : Option Nat) (selfId : Nat) (build : Option β) :
    Option Nat × Option (Option β) :=
  match ctx with
  | some c => (some c, none)
  | none =>
    let _ := selfId
    (none, some build)

/-! ### `QNode._op_successors` and `QNode._best_method` (claim C5) -/

/-- `QNode._op_successors(o_idx, 'G')` (qnode.py lines 413-442): the
non-observables after position `o_idx` in the combined tape. -/
def op_successors_G (ops : List Operation) (o_idx : Nat) : List Operation :=
  (ops.drop (o_idx + 1)).filter (fun x => !x.is_observable)

/-- `QNode._op_successors(o_idx, 'E')`: the observables after position
`o_idx` in the combined tape. -/
def op_successors_E (ops : List Operation) (o_idx : Nat) : List Operation :=
  (ops.drop (o_idx + 1)).filter (fun x => x.is_observable)

/-- The `for x in ev_successors` loop of `best_for_op`
(qnode.py lines 494-502): returns `'F'` at the first observable with
`ev_order` unset, or with `ev_order == 2` and a variance return type;
otherwise finishes with `'A'`.  The second component records whether
`op.grad_method = 'A2'` was assigned along the way (it is assigned on each
order-2 expectation seen before the loop ends or aborts). -/
def scanEvSuccessors : List Operation → Bool → Option GradMethod × Bool
  | [], marked => (some GradMethod.A, marked)
  | x :: xs, marked =>
    if x.ev_order == none then (some GradMethod.F, marked)
    else if x.ev_order == some 2 then
      if x.return_type == some ReturnType.variance then (some GradMethod.F, marked)
      else scanEvSuccessors xs true
    else scanEvSuccessors xs marked

/-- `best_for_op` (qnode.py lines 476-507).  Returns the per-operation method
and the tape after the possible `op.grad_method = 'A2'` instance mutation.
An out-of-range index (impossible for a tape built by `construct`) yields
`(none, ops)`. -/
def best_for_op (ops : List Operation) (o_idx : Nat) : Option GradMethod × List Operation :=
  match ops[o_idx]? with
  | none => (none, ops)
  | some op =>
    if !op.is_cv then (op.grad_method, ops)
    else if op.grad_method == some GradMethod.A then
      if (op_successors_G ops o_idx).all (fun x => x.supports_heisenberg) then
        match scanEvSuccessors (op_successors_E ops o_idx) false with
        | (m, marked) =>
          (m, if marked then ops.set o_idx { op with grad_method := some GradMethod.A2 } else ops)
      else (some GradMethod.F, ops)
    else (op.grad_method, ops)

/-- The `temp = [best_for_op(k) for k, _ in ops]` pass of `_best_method`
(qnode.py line 511), threading the tape through the mutating calls. -/
def bestPerOp (ops : List Operation) : List (Nat × Nat) → List (Option GradMethod) × List Operation
  | [] => ([], ops)
  | s :: rest =>
    match best_for_op ops s.1 with
    | (m, ops') =>
      match bestPerOp ops' rest with
      | (ms, ops'') => (m :: ms, ops'')

/-- The combination rule of `_best_method` (qnode.py lines 512-517): `'A'` iff
all per-op methods are `'A'`, `None` if any is `None`, else `'F'`. -/
def combineMethods (ms : List (Option GradMethod)) : Option GradMethod :=
  if ms.all (fun m => m == some GradMethod.A) then some GradMethod.A
  else if ms.contains none then none
  else some GradMethod.F

/-- `QNode._best_method(idx)` for the use sites `sites = variable_ops[idx]`,
with the tape state after its mutations. -/
def best_method (ops : List Operation) (sites : List (Nat × Nat)) :
    Option GradMethod × List Operation :=
  match bestPerOp ops sites with
  | (ms, ops') => (combineMethods ms, ops')

/-- The dict comprehension
`{k: self._best_method(k) for k in self.variable_ops}` (qnode.py line 411),
evaluated in the insertion order of `variable_ops` and threading the tape
through the `'A2'` instance mutations. -/
def compute_grad_methods (ops : List Operation) :
    List (Nat × List (Nat × Nat)) → List (Nat × Option GradMethod) × List Operation
  | [] => ([], ops)
  | kv :: rest =>
    match best_method ops kv.2 with
    | (m, ops') =>
      match compute_grad_methods ops' rest with
      | (ms, ops'') => ((kv.1, m) :: ms, ops'')

/-- The per-operation method as claim C5 words it, reading the original
descriptors: a non-CV op contributes its hint; a CV op with hint `analytic`
degrades to `finite` when some non-observable successor lacks
`supports_heisenberg`, some downstream observable has `ev_order` unset, or
some downstream observable has `ev_order = 2` with a variance return type;
any other op contributes its hint. -/
def claimed_op_method (ops : List Operation) (o_idx : Nat) : Option GradMethod :=
  match ops[o_idx]? with
  | none => none
  | some op =>
    if !op.is_cv then op.grad_method
    else if op.grad_method == some GradMethod.A then
      if (op_successors_G ops o_idx).all (fun x => x.supports_heisenberg)
          && !(op_successors_E ops o_idx).any (fun x => x.ev_order == none)
          && !(op_successors_E ops o_idx).any
              (fun x => x.ev_order == some 2 && x.return_type == some ReturnType.variance) then
        some GradMethod.A
      else some GradMethod.F
    else op.grad_method

/-- The slot-level method as claim C5 words it: `none` iff some op touching
the slot has claimed per-op method `none`, `analytic` iff all have `analytic`,
else `finite`. -/
def claimed_best_method (ops : List Operation) (sites : List (Nat × Nat)) :
    Option GradMethod :=
  combineMethods (sites.map (fun s => claimed_op_method ops s.1))

/-- Claim C5 as stated, for one constructed tape: the selector result for
every slot equals the claimed characterization over the original tape. -/
def claimC5 (ops : List Operation) (vops : List (Nat × List (Nat × Nat))) : Prop :=
  (compute_grad_methods ops vops).1 =
    vops.map (fun kv => (kv.1, claimed_best_method ops kv.2))

/-- An operation with its `grad_method` erased: two tapes with equal
`shadowGM` images differ at most in the `'A2'` instance marks, which is
exactly the state the selector's mutation can introduce. -/
def shadowGM (op : Operation) : Operation :=
  { op with grad_method := none }

/-- An operation with its `return_type` erased: two tapes with equal
`shadowRT` images differ at most in the variance-to-expectation conversions
`_pd_analytic_var` performs in place. -/
def shadowRT (op : Operation) : Operation :=
  { op with return_type := none }

/-! ### The device lifecycle: `Device.execute` and its queue properties
(claim C10, _device.py lines 118-297) -/

/-- The abstract backend behaviour behind the `Device` hook methods:
supported names, and the outcomes of `apply`, `expval`, `var`, `sample`
(`none` models a raised exception).  The hooks receive exactly what
`Device.execute` passes them: name, wires and resolved parameters, bundled
as a `ResolvedOp`. -/
structure DeviceHooks where
  operations : List String
  observables : List String
  applyOp : ResolvedOp → Option Unit
  expvalF : ResolvedOp → Option ℚ
  varF : ResolvedOp → Option ℚ
  sampleF : ResolvedOp → Nat → Option (List ℚ)

/-- The mutable fields `_op_queue`, `_obs_queue`, `_parameters` of a
`Device`. -/
structure DeviceState where
  op_queue : Option (List ResolvedOp)
  obs_queue : Option (List ResolvedOp)
  parameters : Option (List (Nat × List (Nat × Nat)))
deriving DecidableEq, Repr

/-- A freshly constructed device (`Device.__init__`): all three fields are
`None`. -/
def deviceFresh : DeviceState :=
  { op_queue := none, obs_queue := none, parameters := none }

/-- `Device.check_validity` (_device.py lines 367-382): every gate and
observable name must be supported; `false` is the raised `DeviceError`. -/
def check_validity (hk : DeviceHooks) (queue obs : List ResolvedOp) : Bool :=
  queue.all (fun o => hk.operations.contains o.name)
    && obs.all (fun o => hk.observables.contains o.name)

/-- The `for operation in queue: self.apply(...)` loop: `none` as soon as one
application raises. -/
def applyAll (hk : DeviceHooks) : List ResolvedOp → Option Unit
  | [] => some ()
  | o :: rest =>
    match hk.applyOp o with
    | none => none
    | some _ => applyAll hk rest

/-- One measurement result: a scalar from `expval`/`var` or a sample array. -/
inductive MeasResult where
  | scalar (x : ℚ)
  | arr (xs : List ℚ)
deriving DecidableEq, Repr

/-- The measurement loop of `Device.execute` (_device.py lines 224-236):
expectation and variance observables append a scalar, a sample observable
without `num_samples` raises `DeviceError`, and an observable with no
`return_type` appends nothing. -/
def measureAll (hk : DeviceHooks) : List ResolvedOp → Option (List MeasResult)
  | [] => some []
  | o :: rest =>
    match o.return_type with
    | some ReturnType.expectation =>
      match hk.expvalF o with
      | none => none
      | some x =>
        match measureAll hk rest with
        | none => none
        | some rs => some (MeasResult.scalar x :: rs)
    | some ReturnType.variance =>
      match hk.varF o with
      | none => none
      | some x =>
        match measureAll hk rest with
        | none => none
        | some rs => some (MeasResult.scalar x :: rs)
    | some ReturnType.sample =>
      match o.num_samples with
      | none => none
      | some n =>
        match hk.sampleF o n with
        | none => none
        | some xs =>
          match measureAll hk rest with
          | none => none
          | some rs => some (MeasResult.arr xs :: rs)
    | none => measureAll hk rest

/-- `Device.execute` (_device.py lines 188-249): `check_validity` first (its
failure raises before the queues are set), then `_op_queue`, `_obs_queue` and
`_parameters` are set, the gates are applied and the observables measured, and
on success the three fields are reset to `None` before the results are
returned.  A failure in `apply` or in a measurement propagates with the fields
still set. -/
def device_execute (hk : DeviceHooks) (st : DeviceState) (queue obs : List ResolvedOp)
    (pars : List (Nat × List (Nat × Nat))) : DeviceState × Option (List MeasResult) :=
  if !check_validity hk queue obs then (st, none)
  else
    let st1 : DeviceState := { op_queue := some queue, obs_queue := some obs,
                               parameters := some pars }
    match applyAll hk queue with
    | none => (st1, none)
    | some _ =>
      match measureAll hk obs with
      | none => (st1, none)
      | some results => (deviceFresh, some results)

/-- The `Device.op_queue` property (_device.py lines 251-264): the queue, or
`none` for the raised `ValueError` when `_op_queue` is unset.  `obs_queue` and
`parameters` behave identically on their fields. -/
def op_queue_access (st : DeviceState) : Option (List ResolvedOp) :=
  st.op_queue

/-- Claim C10's access guarantee at a quiescent device state: all three
properties raise `ValueError` (their fields are unset). -/
def outsideAccessRaises (st : DeviceState) : Prop :=
  st.op_queue = none ∧ st.obs_queue = none ∧ st.parameters = none

/-! ### The gradient engine (qnode.py lines 624-1002) -/

/-- The abstract backend reached through `Device.execute`: resolved gates and
resolved observables to measured values, `none` for a raised exception. -/
abbrev DeviceFun := List ResolvedOp → List ResolvedOp → Option (List ℚ)

/-- The keyword-argument binding `Variable.kwarg_values`. -/
abbrev KwFun := String → Nat → ℚ

/-- The order-2 (Heisenberg) branch of `_pd_analytic`
(qnode.py lines 840-887) — the `Z`-matrix construction from
`op.heisenberg_tr`, the conjugation through the successor gates, the
observable transformation `tr_obs`, and the final `evaluate_obs` call — is
abstracted as an opaque contribution from the use site `(o_idx, p_idx)` and
the three parameter bindings `shift_p1`, `shift_p2`, `unshifted_params` it
reads; `none` models an exception raised inside the branch.  No claim under
review concerns the numeric value of this branch; the substitution and
restoration protocol around it is modelled exactly. -/
abbrev Order2Fun := Nat → Nat → List ℚ → List ℚ → List ℚ → Option (List ℚ)

/-- The loop body of `QNode._pd_analytic` (qnode.py lines 806-892) over the
use sites of the slot `idx`.  Per site: save the original `Variable`, check
`orig.idx == idx` (the `assert`), install a fresh `Variable` with index
`num_variables`, evaluate at the extended shifted bindings (or take the
order-2 branch when `force_order2` is set or the op was marked `'A2'`), add
the contribution to `pd`, and restore the original parameter.  There is no
`try/finally`: when an evaluation raises, the function propagates the error
with the temporary substitution still installed.  Returns the final tape
state, the accumulated derivative (`none` on a raised exception) and the
argument vectors passed to `evaluate`/`evaluate_obs`. -/
def pdAnalyticGo (F : DeviceFun) (F2 : Order2Fun) (piHalf : ℚ) (kw : KwFun)
    (free : List ℚ) (idx : Nat) (force2 : Bool) :
    List (Nat × Nat) → QNodeState → List ℚ →
    QNodeState × Option (List ℚ) × List (List ℚ)
  | [], q, pd => (q, some pd, [])
  | (o, p) :: rest, q, pd =>
    match q.ops[o]? with
    | none => (q, none, [])
    | some op =>
      match op.params[p]? with
      | none => (q, none, [])
      | some (Param.const _) => (q, none, [])
      | some (Param.var orig) =>
        if orig.idx != idx then (q, none, [])
        else
          let temp := { orig with idx := q.num_variables }
          let opT := { op with params := op.params.set p (Param.var temp) }
          let q1 : QNodeState := { q with ops := q.ops.set o opT }
          let recipe := op.grad_recipe.getD p none
          let multiplier := (match recipe with | none => (1 : ℚ) / 2 | some r => r.1) * orig.mult
          let shift := (match recipe with | none => piHalf | some r => r.2) / orig.mult
          let sp1 := free ++ [free.getD idx 0 + shift]
          let sp2 := free ++ [free.getD idx 0 - shift]
          let qR : QNodeState :=
            { q1 with ops := q1.ops.set o { opT with params := opT.params.set p (Param.var orig) } }
          if !force2 && op.grad_method != some GradMethod.A2 then
            match qnodeEvaluate F kw q1 sp1 with
            | none => (q1, none, [sp1])
            | some y2 =>
              match qnodeEvaluate F kw q1 sp2 with
              | none => (q1, none, [sp1, sp2])
              | some y1 =>
                match pdAnalyticGo F F2 piHalf kw free idx force2 rest qR
                    (vadd pd (vscale multiplier (vsub y2 y1))) with
                | (q', r, tr) => (q', r, sp1 :: sp2 :: tr)
          else
            let up := free ++ [free.getD idx 0]
            match F2 o p sp1 sp2 up with
            | none => (q1, none, [])
            | some t =>
              match pdAnalyticGo F F2 piHalf kw free idx force2 rest qR (vadd pd t) with
              | (q', r, tr) => (q', r, up :: tr)

/-- `QNode._pd_analytic` (qnode.py lines 785-892): iterate the product rule
over `self.variable_ops[idx]` (a missing key raises), starting from the
scalar `pd = 0.0` (broadcast to the output dimension). -/
def pd_analytic (F : DeviceFun) (F2 : Order2Fun) (piHalf : ℚ) (kw : KwFun)
    (q : QNodeState) (free : List ℚ) (idx : Nat) (force2 : Bool) :
    QNodeState × Option (List ℚ) × List (List ℚ) :=
  match lookupVarOps q idx with
  | none => (q, none, [])
  | some sites => pdAnalyticGo F F2 piHalf kw free idx force2 sites q (vzero (evOps q).length)

/-- `QNode._pd_finite_diff` (qnode.py lines 751-782): order 1 shifts the
parameter by `h` and compares with the precomputed `y0` (an absent `y0`
raises, as `y - None` does); order 2 is the symmetric difference at
`±h/2`; any other order raises `ValueError`.  Returns the derivative and
the argument vectors passed to `evaluate`. -/
def pd_finite_diff (F : DeviceFun) (kw : KwFun) (q : QNodeState) (free : List ℚ)
    (idx : Nat) (h : ℚ) (order : Nat) (y0 : Option (List ℚ)) :
    Option (List ℚ) × List (List ℚ) :=
  if order == 1 then
    let sp := free.set idx (free.getD idx 0 + h)
    match qnodeEvaluate F kw q sp with
    | none => (none, [sp])
    | some y =>
      match y0 with
      | none => (none, [sp])
      | some y0v => (some (vscale (1 / h) (vsub y y0v)), [sp])
  else if order == 2 then
    let sp1 := free.set idx (free.getD idx 0 + h / 2)
    let sp2 := free.set idx (free.getD idx 0 - h / 2)
    match qnodeEvaluate F kw q sp1 with
    | none => (none, [sp1])
    | some y2 =>
      match qnodeEvaluate F kw q sp2 with
      | none => (none, [sp1, sp2])
      | some y1 => (some (vscale (1 / h) (vsub y2 y1)), [sp1, sp2])
  else (none, [])

/-- The replacement observable
`pennylane.expval(pennylane.ops.Hermitian(A @ A, w, do_queue=False))` built by
`_pd_analytic_var` for a non-involutory Hermitian variance.  Descriptor
fields beyond the device-visible ones hold the library defaults of the
`Hermitian` observable. -/
def hermSqObs (M : List (List ℚ)) (w : List Nat) : Operation :=
  { name := "Hermitian", wires := w, params := [], grad_method := some GradMethod.F,
    grad_recipe := [], is_cv := false, supports_heisenberg := false, is_observable := true,
    return_type := some ReturnType.expectation, ev_order := none, num_samples := none,
    mat := some M, hrep := [] }

/-- The replacement observable
`pennylane.expval(pennylane.ops.PolyXP(A, w, do_queue=False))` built by
`_pd_analytic_var` for a first-order CV variance, with the outer product of
the Heisenberg representation as its matrix parameter. -/
def polyXPObs (M : List (List ℚ)) (w : List Nat) : Operation :=
  { name := "PolyXP", wires := w, params := [], grad_method := some GradMethod.F,
    grad_recipe := [], is_cv := true, supports_heisenberg := false, is_observable := true,
    return_type := some ReturnType.expectation, ev_order := some 2, num_samples := none,
    mat := some M, hrep := [] }

/-- Write the `i`-th returned observable (`self.ev[i] = e`, aliased at
position `queue_len + i` of the combined tape). -/
def setEv (q : QNodeState) (i : Nat) (e : Operation) : QNodeState :=
  { q with ops := q.ops.set (q.queue_len + i) e }

/-- The `for i, e in enumerate(self.ev)` loop of `QNode._pd_analytic_var`
(qnode.py lines 912-979), threading the tape and the Python variable `pdA2`
(whose final value is the one set by the last variance iteration; `none` means
it was never assigned).  Each variance observable is converted to an
expectation in place; a qubit `Hermitian` variance with a non-involutory
matrix and every CV variance are additionally replaced by their squared
observable, differentiated with `_pd_analytic`, and restored.  The outer
`none` of the second component models an exception propagating from an inner
derivative. -/
def pdVarLoop (F : DeviceFun) (F2 : Order2Fun) (piHalf : ℚ) (kw : KwFun)
    (free : List ℚ) (idx : Nat) (force2 : Bool) (dim : Nat) :
    Nat → List Operation → QNodeState → Option (List ℚ) →
    QNodeState × Option (Option (List ℚ)) × List (List ℚ)
  | _, [], q, pdA2 => (q, some pdA2, [])
  | i, e :: rest, q, pdA2 =>
    if e.return_type != some ReturnType.variance then
      pdVarLoop F F2 piHalf kw free idx force2 dim (i + 1) rest q pdA2
    else
      let e1 := { e with return_type := some ReturnType.expectation }
      let q1 := setEv q i e1
      if q.ctype == CircuitKind.qubit then
        if e.name == "Hermitian" then
          match e.mat with
          | none => (q1, none, [])
          | some A =>
            if matMul A A == matId A.length then
              pdVarLoop F F2 piHalf kw free idx force2 dim (i + 1) rest q1 (some (vzero dim))
            else
              let q2 := setEv q1 i (hermSqObs (matMul A A) e.wires)
              match pd_analytic F F2 piHalf kw q2 free idx force2 with
              | (q3, none, tr) => (q3, none, tr)
              | (q3, some v, tr) =>
                let q4 := setEv q3 i e1
                match pdVarLoop F F2 piHalf kw free idx force2 dim (i + 1) rest q4 (some v) with
                | (q', r, tr') => (q', r, tr ++ tr')
        else
          pdVarLoop F F2 piHalf kw free idx force2 dim (i + 1) rest q1 (some (vzero dim))
      else
        let q2 := setEv q1 i (polyXPObs (outerProd e.hrep) e.wires)
        match pd_analytic F F2 piHalf kw q2 free idx true with
        | (q3, none, tr) => (q3, none, tr)
        | (q3, some v, tr) =>
          let q4 := setEv q3 i e1
          match pdVarLoop F F2 piHalf kw free idx force2 dim (i + 1) rest q4 (some v) with
          | (q', r, tr') => (q', r, tr ++ tr')

/-- `QNode._pd_analytic_var` (qnode.py lines 894-1002): deep-copy the return
queue, run the conversion/replacement loop, force caching on, evaluate the
(all-expectation) circuit at the unshifted point, differentiate it with
`_pd_analytic`, restore the return queue and the cache flag, and assemble
`np.where(where_var, pdA2 - 2*evA*pdA, pdA)`.  An unassigned `pdA2` (no
variance present) raises `NameError` at the final line; an exception from an
inner evaluation propagates without restoring the queue or the cache flag. -/
def pd_analytic_var (F : DeviceFun) (F2 : Order2Fun) (piHalf : ℚ) (kw : KwFun)
    (q : QNodeState) (free : List ℚ) (idx : Nat) (force2 : Bool) :
    QNodeState × Option (List ℚ) × List (List ℚ) :=
  let old_ev := evOps q
  let where_var := (evOps q).map (fun e => e.return_type == some ReturnType.variance)
  match pdVarLoop F F2 piHalf kw free idx force2 (evOps q).length 0 (evOps q) q none with
  | (qs, none, tr) => (qs, none, tr)
  | (qs, some pdA2, tr) =>
    let q2 : QNodeState := { qs with cache := true }
    match qnodeEvaluate F kw q2 free with
    | none => (q2, none, tr ++ [free])
    | some evA =>
      match pd_analytic F F2 piHalf kw q2 free idx force2 with
      | (q3, none, tr2) => (q3, none, tr ++ [free] ++ tr2)
      | (q3, some pdA, tr2) =>
        let q4 : QNodeState :=
          { q3 with ops := q3.ops.take q3.queue_len ++ old_ev, cache := q.cache }
        match pdA2 with
        | none => (q4, none, tr ++ [free] ++ tr2)
        | some pdA2v =>
          (q4, some (whereVec where_var (vsub pdA2v (vscale 2 (vmul evA pdA))) pdA),
           tr ++ [free] ++ tr2)

/-- The `method` argument of `QNode.jacobian`: `'A'`, `'F'` or `'B'`. -/
inductive JMethod where
  | A
  | F
  | B
deriving DecidableEq, Repr

/-- Greatest element of a list of naturals (`max(which)`). -/
def maxNat (l : List Nat) : Nat :=
  l.foldr max 0

/-- The column loop of `QNode.jacobian` (qnode.py lines 731-747): a slot
absent from `variable_ops` keeps its zero column; otherwise the column comes
from the analytic method (dispatching on the presence of variances) or the
finite-difference method; an unexpected per-parameter method raises
`ValueError`.  An exception from a column aborts the whole Jacobian. -/
def jacobian_cols (F : DeviceFun) (F2 : Order2Fun) (piHalf : ℚ) (kw : KwFun) (dim : Nat)
    (params : List ℚ) (h : ℚ) (order : Nat) (force2 : Bool)
    (methodFor : Nat → Option GradMethod) (variances : Bool) (y0 : Option (List ℚ)) :
    List Nat → QNodeState → QNodeState × Option (List (List ℚ)) × List (List ℚ)
  | [], q => (q, some [], [])
  | k :: rest, q =>
    if (lookupVarOps q k).isNone then
      match jacobian_cols F F2 piHalf kw dim params h order force2 methodFor variances y0 rest q with
      | (q', r, tr) => (q', r.map (fun cols => vzero dim :: cols), tr)
    else
      match methodFor k with
      | some GradMethod.A =>
        match (if variances then pd_analytic_var F F2 piHalf kw q params k force2
               else pd_analytic F F2 piHalf kw q params k force2) with
        | (q1, none, tr) => (q1, none, tr)
        | (q1, some col, tr) =>
          match jacobian_cols F F2 piHalf kw dim params h order force2 methodFor variances y0
              rest q1 with
          | (q', r, tr') => (q', r.map (fun cols => col :: cols), tr ++ tr')
      | some GradMethod.F =>
        match pd_finite_diff F kw q params k h order y0 with
        | (none, tr) => (q, none, tr)
        | (some col, tr) =>
          match jacobian_cols F F2 piHalf kw dim params h order force2 methodFor variances y0
              rest q with
          | (q', r, tr') => (q', r.map (fun cols => col :: cols), tr ++ tr')
      | _ => (q, none, [])

/-- `QNode.jacobian` (qnode.py lines 624-749) on an already constructed node
(the `construct` call at its head re-runs the builder and is outside this
model; the retrace decision is modelled by `evaluate_retraces`).  In order:
the sampling check, the `which` validation, the `None`-method check, the
`'A'`-request check, per-parameter method resolution, the single `y0`
evaluation when a finite-difference column at order 1 is coming, the variance
dispatch flag, and the column loop.  The result is the column list of the
`(output_dim × len(which))` matrix, with the argument vectors passed to
`evaluate` in call order. -/
def jacobian (F : DeviceFun) (F2 : Order2Fun) (piHalf : ℚ) (kw : KwFun) (q : QNodeState)
    (params : List ℚ) (which? : Option (List Nat)) (meth : JMethod) (h : ℚ) (order : Nat)
    (force2 : Bool) : QNodeState × Option (List (List ℚ)) × List (List ℚ) :=
  if (evOps q).any (fun e => e.return_type == some ReturnType.sample) then (q, none, [])
  else
    let which : List Nat :=
      match which? with
      | none => List.range params.length
      | some ws => ws
    let whichBad : Bool :=
      match which? with
      | none => false
      | some ws => ws.isEmpty || decide (q.num_variables ≤ maxNat ws) || hasDupWire ws
    if whichBad then (q, none, [])
    else if which.any (fun k => lookupGrad q k == some none) then (q, none, [])
    else if meth == JMethod.A
        && which.any (fun k => lookupGrad q k == some (some GradMethod.F)) then
      (q, none, [])
    else
      let methodFor : Nat → Option GradMethod :=
        match meth with
        | JMethod.A => fun _ => some GradMethod.A
        | JMethod.F => fun _ => some GradMethod.F
        | JMethod.B => fun k => (lookupGrad q k).join
      let hasF : Bool :=
        match meth with
        | JMethod.A => false
        | JMethod.F => !which.isEmpty
        | JMethod.B => q.grad_methods.any (fun kv => kv.2 == some GradMethod.F)
      let dim := (evOps q).length
      let variances := (evOps q).any (fun e => e.return_type == some ReturnType.variance)
      if hasF && order == 1 then
        match qnodeEvaluate F kw q params with
        | none => (q, none, [params])
        | some y0 =>
          match jacobian_cols F F2 piHalf kw dim params h order force2 methodFor variances
              (some y0) which q with
          | (q', r, tr) => (q', r, params :: tr)
      else
        jacobian_cols F F2 piHalf kw dim params h order force2 methodFor variances none which q

/-! ### Spec-side evaluations for the parameter-shift claims (C3, C4, C6) -/

/-- Override the resolved parameter at one use site of the resolved tape. -/
def overrideAt (l : List ResolvedOp) (o p : Nat) (x : ℚ) : List ResolvedOp :=
  match l[o]? with
  | none => l
  | some r => l.set o { r with par := r.par.set p x }

/-- A circuit evaluation in which only the resolved parameter at the use site
`(o, p)` is replaced by `x`, every other parameter reading the unshifted
binding — the `y₊`/`y₋` of claim C3. -/
def shiftedSiteEval (F : DeviceFun) (kw : KwFun) (q : QNodeState) (free : List ℚ)
    (o p : Nat) (x : ℚ) : Option (List ℚ) :=
  if wireChecksOk q then
    F ((overrideAt (resolvedTape kw free q) o p x).take q.queue_len)
      ((overrideAt (resolvedTape kw free q) o p x).drop q.queue_len)
  else none

/-- The multiplicative scale `orig.mult` of the slot at a use site. -/
def siteMult (q : QNodeState) (s : Nat × Nat) : ℚ :=
  match (q.ops[s.1]?).bind (fun op => op.params[s.2]?) with
  | some (Param.var v) => v.mult
  | _ => 1

/-- The gradient recipe `op.grad_recipe[p_idx]` at a use site. -/
def siteRecipe (q : QNodeState) (s : Nat × Nat) : Option (ℚ × ℚ) :=
  match q.ops[s.1]? with
  | some op => op.grad_recipe.getD s.2 none
  | none => none

/-- The shift-rule pair `(c, s) = grad_recipe[p_idx] or (0.5, π/2)` at a use
site. -/
def siteCoeff (piHalf : ℚ) (q : QNodeState) (s : Nat × Nat) : ℚ × ℚ :=
  match siteRecipe q s with
  | none => (1 / 2, piHalf)
  | some r => r

/-- One use-site contribution of the parameter-shift rule as claim C3 states
it: `(y₊ - y₋) · c · mult`, with `y₊`/`y₋` the circuit evaluated with only
this site's slot value shifted by `± s / mult`. -/
def psContrib (F : DeviceFun) (kw : KwFun) (piHalf : ℚ) (q : QNodeState) (free : List ℚ)
    (idx : Nat) (s : Nat × Nat) : List ℚ :=
  let c := (siteCoeff piHalf q s).1
  let sh := (siteCoeff piHalf q s).2
  let m := siteMult q s
  let base := free.getD idx 0
  vscale (c * m) (vsub
    ((shiftedSiteEval F kw q free s.1 s.2 ((base + sh / m) * m)).getD [])
    ((shiftedSiteEval F kw q free s.1 s.2 ((base - sh / m) * m)).getD []))

/-- The parameter-shift derivative of slot `idx` as claim C3 states it: the
sum of the use-site contributions. -/
def psDeriv (F : DeviceFun) (kw : KwFun) (piHalf : ℚ) (q : QNodeState) (free : List ℚ)
    (idx : Nat) (sites : List (Nat × Nat)) : List ℚ :=
  sites.foldl (fun acc s => vadd acc (psContrib F kw piHalf q free idx s))
    (vzero (evOps q).length)

/-- The extended argument vector `np.r_[params, params[idx] + shift]` passed
to `evaluate` for the positive shift at a use site. -/
def sitePlusArgs (piHalf : ℚ) (q : QNodeState) (free : List ℚ) (idx : Nat)
    (s : Nat × Nat) : List ℚ :=
  free ++ [free.getD idx 0 + (siteCoeff piHalf q s).2 / siteMult q s]

/-- The extended argument vector for the negative shift at a use site. -/
def siteMinusArgs (piHalf : ℚ) (q : QNodeState) (free : List ℚ) (idx : Nat)
    (s : Nat × Nat) : List ℚ :=
  free ++ [free.getD idx 0 - (siteCoeff piHalf q s).2 / siteMult q s]

/-- The tape state after `_pd_analytic` installs the temporary `Variable` of
index `num_variables` at the use site `(o, p)` of operation `op`
(qnode.py lines 816-819). -/
def substSite (q : QNodeState) (o p : Nat) (op : Operation) (orig : Variable) : QNodeState :=
  { q with ops := (q.ops.set o
      { op with params := (op.params.set p (Param.var { orig with idx := q.num_variables })) }) }

/-- Bool check: the use site points at a `Variable` of the differentiated
slot, with no keyword name (the shape `construct` guarantees for
`variable_ops` entries). -/
def validSiteB (q : QNodeState) (idx : Nat) (s : Nat × Nat) : Bool :=
  match (q.ops[s.1]?).bind (fun op => op.params[s.2]?) with
  | some (Param.var v) => v.idx == idx && v.name == none
  | _ => false

/-- Bool check: the op at the use site was not marked `'A2'`, so
`_pd_analytic` takes the order-1 branch there (with `force_order2`
unset). -/
def siteNotA2 (q : QNodeState) (s : Nat × Nat) : Bool :=
  match q.ops[s.1]? with
  | some op => op.grad_method != some GradMethod.A2
  | none => true

/-- Bool check: every free (non-keyword) `Variable` on the tape has an index
below `num_variables`, so the temporary index `num_variables` is unused — the
premise of the scoped-substitution protocol (spec §4.6). -/
def varsBoundedB (q : QNodeState) : Bool :=
  q.ops.all (fun op => op.params.all (fun pa =>
    match pa with
    | Param.var v => v.name != none || decide (v.idx < q.num_variables)
    | Param.const _ => true))

/-- Convert a variance observable to an expectation, as `_pd_analytic_var`
does in place; anything else is untouched. -/
def convertVariancesOp (e : Operation) : Operation :=
  if e.return_type == some ReturnType.variance
  then { e with return_type := some ReturnType.expectation } else e

/-- The tape with every returned variance observable converted to an
expectation — the circuit on which `_pd_analytic_var` obtains `⟨A⟩` and the
expectation derivative. -/
def convertVariances (q : QNodeState) : QNodeState :=
  { q with ops := q.ops.take q.queue_len ++ (q.ops.drop q.queue_len).map convertVariancesOp }

/-- Bool check: a returned observable is either not a variance, or involutory
in the qubit sense — not named `Hermitian` (PauliX/Y/Z, Hadamard, Identity
all square to the identity), or a `Hermitian` whose matrix satisfies
`A @ A == identity`. -/
def varInvolutoryB (e : Operation) : Bool :=
  e.return_type != some ReturnType.variance
    || e.name != "Hermitian"
    || (match e.mat with
        | some A => matMul A A == matId A.length
        | none => false)

/-- `∂⟨A²⟩/∂θ` at returned-observable position `i` as claim C4 states it for
a qubit circuit: zero for an involutory observable (`A² = I`), and for a
non-involutory `Hermitian` the parameter-shift derivative of the circuit with
that observable replaced by `Hermitian(A @ A)` (every variance converted to
an expectation). -/
def claimedSqDerivAt (F : DeviceFun) (kw : KwFun) (piHalf : ℚ) (q : QNodeState)
    (free : List ℚ) (idx : Nat) (sites : List (Nat × Nat)) (i : Nat) : ℚ :=
  match (evOps q)[i]? with
  | none => 0
  | some e =>
    if e.name == "Hermitian" then
      match e.mat with
      | none => 0
      | some A =>
        if matMul A A == matId A.length then 0
        else (psDeriv F kw piHalf (setEv (convertVariances q) i (hermSqObs (matMul A A) e.wires))
          free idx sites).getD i 0
    else 0

/-- The analytic variance column as claim C4 states it for a qubit circuit:
at variance positions `∂⟨A²⟩/∂θ − 2·⟨A⟩·∂⟨A⟩/∂θ`, and at expectation
positions the plain parameter-shift derivative, with `⟨A⟩` one unshifted
evaluation of the circuit with every variance converted to an
expectation. -/
def claimedVarColumnC4 (F : DeviceFun) (kw : KwFun) (piHalf : ℚ) (q : QNodeState)
    (free : List ℚ) (idx : Nat) (sites : List (Nat × Nat)) : List ℚ :=
  (List.range (evOps q).length).map (fun i =>
    match (evOps q)[i]? with
    | none => 0
    | some e =>
      if e.return_type == some ReturnType.variance then
        claimedSqDerivAt F kw piHalf q free idx sites i
          - 2 * (((qnodeEvaluate F kw (convertVariances q) free).getD []).getD i 0)
            * ((psDeriv F kw piHalf (convertVariances q) free idx sites).getD i 0)
      else (psDeriv F kw piHalf (convertVariances q) free idx sites).getD i 0)

/-- The analytic variance column restricted to involutory qubit observables,
where `∂⟨A²⟩/∂θ = 0`: `np.where(where_var, −2·⟨A⟩·∂⟨A⟩/∂θ, ∂⟨A⟩/∂θ)` with
`⟨A⟩` and the parameter-shift derivative read off the circuit with every
variance converted to an expectation. -/
def claimedVarColumn (F : DeviceFun) (kw : KwFun) (piHalf : ℚ) (q : QNodeState)
    (free : List ℚ) (idx : Nat) (sites : List (Nat × Nat)) : List ℚ :=
  whereVec ((evOps q).map (fun e => e.return_type == some ReturnType.variance))
    (vsub (vzero (evOps q).length)
      (vscale 2 (vmul ((qnodeEvaluate F kw (convertVariances q) free).getD [])
        (psDeriv F kw piHalf (convertVariances q) free idx sites))))
    (psDeriv F kw piHalf (convertVariances q) free idx sites)

/-- The finite-difference column of claim C6 at order 1:
`(y - y₀)/h` with `y` the evaluation at `params + h·e_k`, or the zero column
for an unused slot. -/
def fdCol1 (F : DeviceFun) (kw : KwFun) (q : QNodeState) (params : List ℚ) (h : ℚ)
    (y0v : List ℚ) (k : Nat) : List ℚ :=
  if (lookupVarOps q k).isSome then
    vscale (1 / h) (vsub ((qnodeEvaluate F kw q (params.set k (params.getD k 0 + h))).getD [])
      y0v)
  else vzero (evOps q).length

/-- The finite-difference column of claim C6 at order 2: the central
difference at `params ± (h/2)·e_k`, or the zero column for an unused slot. -/
def fdCol2 (F : DeviceFun) (kw : KwFun) (q : QNodeState) (params : List ℚ) (h : ℚ)
    (k : Nat) : List ℚ :=
  if (lookupVarOps q k).isSome then
    vscale (1 / h) (vsub ((qnodeEvaluate F kw q (params.set k (params.getD k 0 + h / 2))).getD [])
      ((qnodeEvaluate F kw q (params.set k (params.getD k 0 - h / 2))).getD []))
  else vzero (evOps q).length

/-- The evaluation points a finite-difference column contributes to the trace
at order 1. -/
def fdTrace1 (q : QNodeState) (params : List ℚ) (h : ℚ) (k : Nat) : List (List ℚ) :=
  if (lookupVarOps q k).isSome then [params.set k (params.getD k 0 + h)] else []

/-- The evaluation points a finite-difference column contributes to the trace
at order 2. -/
def fdTrace2 (q : QNodeState) (params : List ℚ) (h : ℚ) (k : Nat) : List (List ℚ) :=
  if (lookupVarOps q k).isSome then
    [params.set k (params.getD k 0 + h / 2), params.set k (params.getD k 0 - h / 2)]
  else []

/-! ### Concrete instances used in witnesses and counterexamples -/

/-- Empty keyword binding. -/
def kw0 : KwFun := fun _ _ => 0

/-- An order-2 branch that raises; no instance below reaches it. -/
def F2none : Order2Fun := fun _ _ _ _ _ => none

/-- A device whose execution always raises (an unsupported gate, a hardware
failure). -/
def Ffail : DeviceFun := fun _ _ => none

/-- A deterministic device: each observable measures the sum of all resolved
gate parameters. -/
def FsumPar : DeviceFun :=
  fun g o => some (o.map (fun _ => (g.map (fun r => r.par.sum)).sum))

/-- A one-parameter qubit gate on wire 0 carrying slot 0 (an `RX`); no
explicit recipe, so the shift rule uses the default `(0.5, π/2)`. -/
def opRX : Operation :=
  { name := "RX", wires := [0], params := [Param.var ⟨0, none, 1⟩],
    grad_method := some GradMethod.A, grad_recipe := [none], is_cv := false,
    supports_heisenberg := false, is_observable := false, return_type := none,
    ev_order := none, num_samples := none, mat := none, hrep := [] }

/-- `opRX` with its slot replaced by the temporary `Variable` of index
`num_variables = 1` — the state `_pd_analytic` leaves behind when an
evaluation raises mid-site. -/
def opRXsub : Operation :=
  { opRX with params := [Param.var ⟨1, none, 1⟩] }

/-- A returned `⟨PauliZ₀⟩` expectation. -/
def obsZ0 : Operation :=
  { name := "PauliZ", wires := [0], params := [], grad_method := some GradMethod.A,
    grad_recipe := [], is_cv := false, supports_heisenberg := false, is_observable := true,
    return_type := some ReturnType.expectation, ev_order := some 1, num_samples := none,
    mat := none, hrep := [] }

/-- A constructed one-slot qubit node: `RX(θ, 0); return ⟨Z₀⟩`. -/
def qC1 : QNodeState :=
  { ops := [opRX, obsZ0], queue_len := 1, variable_ops := [(0, [(0, 0)])],
    grad_methods := [(0, some GradMethod.A)], num_variables := 1, num_wires := 1,
    cache := true, ctype := CircuitKind.qubit }

/-- `qC1` with the finite-difference method selected for its slot. -/
def qC6 : QNodeState :=
  { qC1 with grad_methods := [(0, some GradMethod.F)] }

/-- A one-parameter qubit gate with the explicit recipe `(1, 1)`. -/
def opG : Operation :=
  { name := "RG", wires := [0], params := [Param.var ⟨0, none, 1⟩],
    grad_method := some GradMethod.A, grad_recipe := [some (1, 1)], is_cv := false,
    supports_heisenberg := false, is_observable := false, return_type := none,
    ev_order := none, num_samples := none, mat := none, hrep := [] }

/-- A non-involutory Hermitian matrix: `M @ M ≠ I`. -/
def matM : List (List ℚ) :=
  [[2, 0], [0, 0]]

/-- A returned `var(Hermitian(matM, 0))`. -/
def obsHermVar : Operation :=
  { name := "Hermitian", wires := [0], params := [], grad_method := some GradMethod.F,
    grad_recipe := [], is_cv := false, supports_heisenberg := false, is_observable := true,
    return_type := some ReturnType.variance, ev_order := none, num_samples := none,
    mat := some matM, hrep := [] }

/-- A returned `var(PauliZ₁)` (involutory). -/
def obsZ1Var : Operation :=
  { name := "PauliZ", wires := [1], params := [], grad_method := some GradMethod.A,
    grad_recipe := [], is_cv := false, supports_heisenberg := false, is_observable := true,
    return_type := some ReturnType.variance, ev_order := some 1, num_samples := none,
    mat := none, hrep := [] }

/-- A qubit node returning a non-involutory Hermitian variance followed by an
involutory variance: `RG(θ, 0); return (var(Hermitian(M, 0)), var(Z₁))`. -/
def qC4 : QNodeState :=
  { ops := [opG, obsHermVar, obsZ1Var], queue_len := 1, variable_ops := [(0, [(0, 0)])],
    grad_methods := [(0, some GradMethod.A)], num_variables := 1, num_wires := 2,
    cache := false, ctype := CircuitKind.qubit }

/-- A returned `var(PauliZ₀)`. -/
def obsZ0Var : Operation :=
  { obsZ0 with return_type := some ReturnType.variance }

/-- A qubit node returning one involutory variance: `RG(θ, 0); return var(Z₀)`. -/
def qC4w : QNodeState :=
  { ops := [opG, obsZ0Var], queue_len := 1, variable_ops := [(0, [(0, 0)])],
    grad_methods := [(0, some GradMethod.A)], num_variables := 1, num_wires := 1,
    cache := false, ctype := CircuitKind.qubit }

/-- A Gaussian CV gate with two parameters carrying slots 0 and 1
(a `Displacement`), analytically differentiable. -/
def opD : Operation :=
  { name := "Displacement", wires := [0], params := [Param.var ⟨0, none, 1⟩, Param.var ⟨1, none, 1⟩],
    grad_method := some GradMethod.A, grad_recipe := [none, none], is_cv := true,
    supports_heisenberg := true, is_observable := false, return_type := none,
    ev_order := none, num_samples := none, mat := none, hrep := [] }

/-- A returned second-order CV expectation (`ev_order = 2`). -/
def obsX2 : Operation :=
  { name := "PolyXP", wires := [0], params := [], grad_method := some GradMethod.F,
    grad_recipe := [], is_cv := true, supports_heisenberg := false, is_observable := true,
    return_type := some ReturnType.expectation, ev_order := some 2, num_samples := none,
    mat := none, hrep := [] }

/-- The reverse index of the tape `[opD, obsX2]`: slot 0 at site `(0,0)`,
slot 1 at site `(0,1)` — the same operation consulted for two slots. -/
def vopsC5 : List (Nat × List (Nat × Nat)) :=
  [(0, [(0, 0)]), (1, [(0, 1)])]

/-- A single-slot reverse index for the same tape: each operation is
consulted for at most one use site. -/
def vopsC5w : List (Nat × List (Nat × Nat)) :=
  [(0, [(0, 0)])]

/-- A backend supporting only the gate name `"X"` whose `apply` always
raises. -/
def hkFail : DeviceHooks :=
  { operations := ["X"], observables := [], applyOp := fun _ => none,
    expvalF := fun _ => none, varF := fun _ => none, sampleF := fun _ _ => none }

/-- A backend supporting only the gate name `"X"` whose `apply` always
succeeds. -/
def hkOk : DeviceHooks :=
  { operations := ["X"], observables := [], applyOp := fun _ => some (),
    expvalF := fun _ => some 0, varF := fun _ => some 0, sampleF := fun _ _ => some [] }

/-- A resolved parameterless gate named `"X"`. -/
def ropX : ResolvedOp :=
  { name := "X", wires := [0], par := [], mat := none, return_type := none,
    num_samples := none }

/-! ## Theorems -/

/-! ### Helper lemmas -/

/-- `all` over a mapped list, as a rewrite on the mapping function. -/
theorem all_map_comp {α β : Type} (f : α → β) (p : β → Bool) (l : List α) :
    (l.map f).all p = l.all (fun a => p (f a)) := by
  induction l with
  | nil => rfl
  | cons a l ih => simp [ih]

/-- Writing back the element already at a position leaves a list unchanged. -/
theorem set_of_getElem? {α : Type} {l : List α} {i : Nat} {a : α} (h : l[i]? = some a) :
    l.set i a = l := by
  have hi : i < l.length := by
    by_contra hc
    rw [List.getElem?_eq_none (Nat.le_of_not_lt hc)] at h
    cases h
  apply List.ext_getElem?
  intro j
  by_cases hij : i = j
  · subst hij
    rw [List.getElem?_set_self hi, h]
  · rw [List.getElem?_set_ne hij]

/-- The run-time wire checks of `QNode.evaluate` depend only on the wire
lists of the tape: replacing `ops` by a list with the same wires preserves
them. -/
theorem wireChecksOk_ops_congr (q : QNodeState) (l : List Operation)
    (h : l.map (fun op => op.wires) = q.ops.map (fun op => op.wires)) :
    wireChecksOk { q with ops := l } = wireChecksOk q := by
  unfold wireChecksOk measuredWiresOk wiresInRange evOps
  have h1 : (l.drop q.queue_len).flatMap (fun op => op.wires)
      = (q.ops.drop q.queue_len).flatMap (fun op => op.wires) := by
    rw [List.flatMap_def, List.flatMap_def, List.map_drop, List.map_drop, h]
  have h2 : l.all (fun op => op.wires.all (fun w => decide (w < q.num_wires)))
      = q.ops.all (fun op => op.wires.all (fun w => decide (w < q.num_wires))) := by
    have e1 := all_map_comp (fun op => op.wires)
      (fun ws => ws.all (fun w => decide (w < q.num_wires))) l
    have e2 := all_map_comp (fun op => op.wires)
      (fun ws => ws.all (fun w => decide (w < q.num_wires))) q.ops
    rw [← e1, ← e2, h]
  simp only [h1, h2]

/-- Extending the free-parameter binding with one extra slot does not change
the resolution of a parameter whose `Variable` (if any) is a keyword slot or
has an index inside the original binding. -/
theorem resolveParam_extend (kw : KwFun) (free : List ℚ) (v : ℚ) (pa : Param)
    (h : (match pa with
          | Param.var w => w.name != none || decide (w.idx < free.length)
          | Param.const _ => true) = true) :
    resolveParam kw (free ++ [v]) pa = resolveParam kw free pa := by
  cases pa with
  | const x => rfl
  | var w =>
    cases hn : w.name with
    | some s => simp [resolveParam, hn]
    | none =>
      have h' : (w.name != none || decide (w.idx < free.length)) = true := h
      rw [hn] at h'
      have hidx : w.idx < free.length := by simpa using h'
      simp only [resolveParam, hn]
      rw [List.getD_append _ _ _ _ hidx]

/-- Extending the free-parameter binding does not change the resolution of an
operation all of whose free slots lie inside the original binding. -/
theorem resolveOp_extend (kw : KwFun) (free : List ℚ) (v : ℚ) (op : Operation)
    (h : op.params.all (fun pa =>
          match pa with
          | Param.var w => w.name != none || decide (w.idx < free.length)
          | Param.const _ => true) = true) :
    resolveOp kw (free ++ [v]) op = resolveOp kw free op := by
  unfold resolveOp
  have : op.params.map (resolveParam kw (free ++ [v]))
      = op.params.map (resolveParam kw free) := by
    apply List.map_congr_left
    intro pa hpa
    exact resolveParam_extend kw free v pa (List.all_eq_true.1 h pa hpa)
  rw [this]

/-- The scoped-substitution lemma (spec §4.6): installing the temporary
`Variable` of fresh index `num_variables` at one use site and evaluating the
tape under the binding extended with `v` resolves to the unshifted resolved
tape with only that site's parameter overridden by `v * orig.mult`. -/
theorem resolvedTape_subst (kw : KwFun) (q : QNodeState) (free : List ℚ) (v : ℚ)
    (o p : Nat) (op : Operation) (orig : Variable)
    (hop : q.ops[o]? = some op)
    (hpar : op.params[p]? = some (Param.var orig))
    (hname : orig.name = none)
    (hbound : varsBoundedB q = true)
    (hfree : free.length = q.num_variables) :
    resolvedTape kw (free ++ [v]) (substSite q o p op orig) =
      overrideAt (resolvedTape kw free q) o p (v * orig.mult) := by
  have hboundOp : ∀ op' ∈ q.ops, op'.params.all (fun pa =>
      match pa with
      | Param.var w => w.name != none || decide (w.idx < free.length)
      | Param.const _ => true) = true := by
    intro op' hmem
    have := List.all_eq_true.1 hbound op' hmem
    rw [List.all_eq_true] at this ⊢
    intro pa hpa
    have hthis := this pa hpa
    cases pa with
    | const x => rfl
    | var w => simpa [hfree] using hthis
  unfold resolvedTape overrideAt substSite
  rw [List.map_set]
  have hmapTail : q.ops.map (resolveOp kw (free ++ [v])) = q.ops.map (resolveOp kw free) := by
    apply List.map_congr_left
    intro op' hmem
    exact resolveOp_extend kw free v op' (hboundOp op' hmem)
  rw [hmapTail]
  have hget : (q.ops.map (resolveOp kw free))[o]? = some (resolveOp kw free op) := by
    rw [List.getElem?_map, hop]
    rfl
  rw [hget]
  congr 1
  unfold resolveOp
  simp only [List.map_set]
  have hmapPar : op.params.map (resolveParam kw (free ++ [v]))
      = op.params.map (resolveParam kw free) := by
    apply List.map_congr_left
    intro pa hpa
    exact resolveParam_extend kw free v pa
      (List.all_eq_true.1 (hboundOp op (List.getElem?_mem hop)) pa hpa)
  rw [hmapPar]
  have hval : resolveParam kw (free ++ [v]) (Param.var { orig with idx := q.num_variables })
      = v * orig.mult := by
    unfold resolveParam
    simp only [hname]
    rw [List.getD_append_right _ _ _ _ (by rw [hfree]), hfree]
    simp
  rw [hval]

/-- The per-site evaluation of `_pd_analytic` — the substituted tape under
the extended binding — equals the spec-side shifted-site evaluation. -/
theorem qnodeEvaluate_subst (F : DeviceFun) (kw : KwFun) (q : QNodeState) (free : List ℚ)
    (v : ℚ) (o p : Nat) (op : Operation) (orig : Variable)
    (hop : q.ops[o]? = some op)
    (hpar : op.params[p]? = some (Param.var orig))
    (hname : orig.name = none)
    (hbound : varsBoundedB q = true)
    (hfree : free.length = q.num_variables) :
    qnodeEvaluate F kw (substSite q o p op orig) (free ++ [v]) =
      shiftedSiteEval F kw q free o p (v * orig.mult) := by
  unfold qnodeEvaluate shiftedSiteEval
  have hwires : wireChecksOk (substSite q o p op orig) = wireChecksOk q := by
    apply wireChecksOk_ops_congr
    rw [List.map_set]
    apply set_of_getElem?
    rw [List.getElem?_map, hop]
    rfl
  rw [show (substSite q o p op orig).queue_len = q.queue_len from rfl, hwires]
  rw [resolvedTape_subst kw q free v o p op orig hop hpar hname hbound hfree]

/-- Restoring the original `Variable` after the scoped substitution returns
the tape to its original state (the protocol of qnode.py lines 813-890 on a
successful site). -/
theorem restore_after_subst (q : QNodeState) (o p : Nat) (op : Operation)
    (orig temp : Variable)
    (hop : q.ops[o]? = some op)
    (hpar : op.params[p]? = some (Param.var orig)) :
    ({ q with ops := ((q.ops.set o { op with params := (op.params.set p (Param.var temp)) }).set o
        { op with params := ((op.params.set p (Param.var temp)).set p (Param.var orig)) }) }
      : QNodeState) = q := by
  rw [List.set_set, List.set_set, set_of_getElem? hpar]
  have hope : ({ op with params := op.params } : Operation) = op := rfl
  rw [hope, set_of_getElem? hop]

/-- Every shifted-site evaluation succeeds on a total device once the wire
checks pass. -/
theorem shiftedSiteEval_isSome (F : DeviceFun) (kw : KwFun) (q : QNodeState) (free : List ℚ)
    (o p : Nat) (x : ℚ) (hwires : wireChecksOk q = true) (hF : ∀ g ob, (F g ob).isSome) :
    (shiftedSiteEval F kw q free o p x).isSome := by
  unfold shiftedSiteEval
  rw [if_pos hwires]
  exact hF _ _

/-- One step of the `_pd_analytic` site loop on an order-1 site: the two
shifted evaluations succeed, the shift-rule contribution is accumulated, and
the tape is restored before the next site. -/
theorem pdAnalyticGo_cons (F : DeviceFun) (F2 : Order2Fun) (piHalf : ℚ) (kw : KwFun)
    (free : List ℚ) (idx : Nat) (q : QNodeState) (o p : Nat) (op : Operation)
    (orig : Variable) (rest : List (Nat × Nat)) (pd0 : List ℚ)
    (hop : q.ops[o]? = some op)
    (hpar : op.params[p]? = some (Param.var orig))
    (hidx : orig.idx = idx)
    (hname : orig.name = none)
    (hA2op : (op.grad_method != some GradMethod.A2) = true)
    (hbound : varsBoundedB q = true)
    (hfree : free.length = q.num_variables)
    (hwires : wireChecksOk q = true)
    (hF : ∀ g ob, (F g ob).isSome) :
    pdAnalyticGo F F2 piHalf kw free idx false ((o, p) :: rest) q pd0 =
      (match pdAnalyticGo F F2 piHalf kw free idx false rest q
          (vadd pd0 (psContrib F kw piHalf q free idx (o, p))) with
       | (q', r, tr) => (q', r, sitePlusArgs piHalf q free idx (o, p) ::
           siteMinusArgs piHalf q free idx (o, p) :: tr)) := by
  have hsm : siteMult q (o, p) = orig.mult := by
    unfold siteMult
    rw [hop]
    simp [hpar]
  have hsr : siteRecipe q (o, p) = op.grad_recipe.getD p none := by
    unfold siteRecipe
    rw [hop]
  have he1 := qnodeEvaluate_subst F kw q free
    (free.getD idx 0 + (siteCoeff piHalf q (o, p)).2 / orig.mult) o p op orig
    hop hpar hname hbound hfree
  have he2 := qnodeEvaluate_subst F kw q free
    (free.getD idx 0 - (siteCoeff piHalf q (o, p)).2 / orig.mult) o p op orig
    hop hpar hname hbound hfree
  obtain ⟨y2, hy2⟩ := Option.isSome_iff_exists.1
    (shiftedSiteEval_isSome F kw q free o p _ hwires hF)
  rw [hy2] at he1
  obtain ⟨y1, hy1⟩ := Option.isSome_iff_exists.1
    (shiftedSiteEval_isSome F kw q free o p _ hwires hF)
  rw [hy1] at he2
  have hcontrib : psContrib F kw piHalf q free idx (o, p)
      = vscale ((siteCoeff piHalf q (o, p)).1 * orig.mult) (vsub y2 y1) := by
    show vscale ((siteCoeff piHalf q (o, p)).1 * siteMult q (o, p))
        (vsub ((shiftedSiteEval F kw q free o p
            ((free.getD idx 0 + (siteCoeff piHalf q (o, p)).2 / siteMult q (o, p))
              * siteMult q (o, p))).getD [])
          ((shiftedSiteEval F kw q free o p
            ((free.getD idx 0 - (siteCoeff piHalf q (o, p)).2 / siteMult q (o, p))
              * siteMult q (o, p))).getD [])) = _
    rw [hsm, hy2, hy1]
    rfl
  have hrestore := restore_after_subst q o p op orig
    { orig with idx := q.num_variables } hop hpar
  cases hrec : op.grad_recipe.getD p none with
  | none =>
    have hc1 : (siteCoeff piHalf q (o, p)).1 = 1 / 2 := by
      unfold siteCoeff
      rw [hsr, hrec]
    have hc2 : (siteCoeff piHalf q (o, p)).2 = piHalf := by
      unfold siteCoeff
      rw [hsr, hrec]
    rw [hc2] at he1 he2
    rw [hc1] at hcontrib
    have hsp : sitePlusArgs piHalf q free idx (o, p)
        = free ++ [free.getD idx 0 + piHalf / orig.mult] := by
      unfold sitePlusArgs
      rw [hc2, hsm]
    have hsn : siteMinusArgs piHalf q free idx (o, p)
        = free ++ [free.getD idx 0 - piHalf / orig.mult] := by
      unfold siteMinusArgs
      rw [hc2, hsm]
    simp only [pdAnalyticGo, hop, hpar, hidx, bne_self_eq_false, Bool.false_eq_true,
      if_false, hrec, Bool.not_false, Bool.true_and, hA2op, if_true, substSite] at *
    rw [he1, he2, hcontrib, hrestore, hsp, hsn]
  | some rc =>
    have hc1 : (siteCoeff piHalf q (o, p)).1 = rc.1 := by
      unfold siteCoeff
      rw [hsr, hrec]
    have hc2 : (siteCoeff piHalf q (o, p)).2 = rc.2 := by
      unfold siteCoeff
      rw [hsr, hrec]
    rw [hc2] at he1 he2
    rw [hc1] at hcontrib
    have hsp : sitePlusArgs piHalf q free idx (o, p)
        = free ++ [free.getD idx 0 + rc.2 / orig.mult] := by
      unfold sitePlusArgs
      rw [hc2, hsm]
    have hsn : siteMinusArgs piHalf q free idx (o, p)
        = free ++ [free.getD idx 0 - rc.2 / orig.mult] := by
      unfold siteMinusArgs
      rw [hc2, hsm]
    simp only [pdAnalyticGo, hop, hpar, hidx, bne_self_eq_false, Bool.false_eq_true,
      if_false, hrec, Bool.not_false, Bool.true_and, hA2op, if_true, substSite] at *
    rw [he1, he2, hcontrib, hrestore, hsp, hsn]

/-- The `_pd_analytic` site loop over order-1 sites computes the
parameter-shift sum, restores the tape, and evaluates at the two shifted
extended bindings per site. -/
theorem pdAnalyticGo_shift_sum (F : DeviceFun) (F2 : Order2Fun) (piHalf : ℚ) (kw : KwFun)
    (free : List ℚ) (idx : Nat) (q : QNodeState)
    (hbound : varsBoundedB q = true)
    (hfree : free.length = q.num_variables)
    (hwires : wireChecksOk q = true)
    (hF : ∀ g ob, (F g ob).isSome) :
    ∀ (sites : List (Nat × Nat)) (pd0 : List ℚ),
      sites.all (validSiteB q idx) = true →
      sites.all (siteNotA2 q) = true →
      pdAnalyticGo F F2 piHalf kw free idx false sites q pd0 =
        (q, some (sites.foldl (fun acc s => vadd acc (psContrib F kw piHalf q free idx s)) pd0),
          sites.flatMap (fun s => [sitePlusArgs piHalf q free idx s,
            siteMinusArgs piHalf q free idx s])) := by
  intro sites
  induction sites with
  | nil =>
    intro pd0 _ _
    rfl
  | cons s rest ih =>
    intro pd0 hvalid hA2
    obtain ⟨o, p⟩ := s
    rw [List.all_cons, Bool.and_eq_true] at hvalid hA2
    have hv := hvalid.1
    unfold validSiteB at hv
    cases hop : q.ops[o]? with
    | none =>
      rw [hop] at hv
      simp at hv
    | some op =>
      rw [hop, Option.some_bind] at hv
      cases hpar : op.params[p]? with
      | none =>
        rw [hpar] at hv
        simp at hv
      | some pa =>
        rw [hpar] at hv
        cases pa with
        | const x => simp at hv
        | var orig =>
          simp only [Bool.and_eq_true, beq_iff_eq] at hv
          obtain ⟨hidx, hname⟩ := hv
          have hA2op : (op.grad_method != some GradMethod.A2) = true := by
            have hthis := hA2.1
            unfold siteNotA2 at hthis
            rw [hop] at hthis
            exact hthis
          rw [pdAnalyticGo_cons F F2 piHalf kw free idx q o p op orig rest pd0 hop hpar
            hidx hname hA2op hbound hfree hwires hF]
          rw [ih (vadd pd0 (psContrib F kw piHalf q free idx (o, p))) hvalid.2 hA2.2]
          simp only [List.foldl_cons, List.flatMap_cons]
          rfl

/-- C3: for a slot whose every use site takes the order-1 analytic branch,
`QNode._pd_analytic` returns the sum over the use sites in
`variable_ops[idx]` of `(y₊ - y₋) · c · mult`, where `(c, s)` is the op's
`grad_recipe` for that parameter or `(0.5, π/2)` when absent, `mult` is the
original slot's scale, and `y₊`/`y₋` are circuit evaluations with only that
site's parameter shifted by `± s / mult`; the tape is restored on return. -/
theorem C3_pd_analytic_is_parameter_shift_sum (F : DeviceFun) (F2 : Order2Fun) (piHalf : ℚ)
    (kw : KwFun) (q : QNodeState) (free : List ℚ) (idx : Nat) (sites : List (Nat × Nat))
    (hsites : lookupVarOps q idx = some sites)
    (hvalid : sites.all (validSiteB q idx) = true)
    (hA2 : sites.all (siteNotA2 q) = true)
    (hbound : varsBoundedB q = true)
    (hfree : free.length = q.num_variables)
    (hwires : wireChecksOk q = true)
    (hF : ∀ g ob, (F g ob).isSome) :
    pd_analytic F F2 piHalf kw q free idx false =
      (q, some (psDeriv F kw piHalf q free idx sites),
        sites.flatMap (fun s => [sitePlusArgs piHalf q free idx s,
          siteMinusArgs piHalf q free idx s])) := by
  unfold pd_analytic
  rw [hsites]
  exact pdAnalyticGo_shift_sum F F2 piHalf kw free idx q hbound hfree hwires hF sites _
    hvalid hA2

/-- C3 witness: the parameter-shift sum of the node `RX(θ, 0); return ⟨Z₀⟩`
at `θ = 0` on the parameter-sum device. -/
theorem C3_witness :
    lookupVarOps qC1 0 = some [(0, 0)] ∧
    pd_analytic FsumPar F2none 2 kw0 qC1 [0] 0 false =
      (qC1, some (psDeriv FsumPar kw0 2 qC1 [0] 0 [(0, 0)]),
        [(0, 0)].flatMap (fun s => [sitePlusArgs 2 qC1 [0] 0 s, siteMinusArgs 2 qC1 [0] 0 s])) :=
  ⟨rfl, C3_pd_analytic_is_parameter_shift_sum FsumPar F2none 2 kw0 qC1 [0] 0 [(0, 0)]
    rfl (by decide) (by decide) (by decide) rfl (by decide) (fun g ob => rfl)⟩

/-- Circuit evaluations succeed on a total device once the wire checks
pass. -/
theorem qnodeEvaluate_isSome (F : DeviceFun) (kw : KwFun) (q : QNodeState) (free : List ℚ)
    (hwires : wireChecksOk q = true) (hF : ∀ g ob, (F g ob).isSome) :
    (qnodeEvaluate F kw q free).isSome := by
  unfold qnodeEvaluate
  rw [if_pos hwires]
  exact hF _ _

/-- Every element of a list of naturals is bounded by `maxNat`. -/
theorem le_maxNat (l : List Nat) : ∀ k ∈ l, k ≤ maxNat l := by
  induction l with
  | nil => intro k hk; cases hk
  | cons a l ih =>
    intro k hk
    rcases List.mem_cons.1 hk with h | h
    · subst h
      exact Nat.le_max_left _ _
    · exact Nat.le_trans (ih k h) (Nat.le_max_right _ _)

/-- The Jacobian column loop when every requested slot uses the
finite-difference method at order 1: each used slot contributes
`(y - y₀)/h` from one evaluation at the shifted point, unused slots
contribute zero columns with no evaluation. -/
theorem jacobian_cols_fd_order1 (F : DeviceFun) (F2 : Order2Fun) (piHalf : ℚ) (kw : KwFun)
    (dim : Nat) (params : List ℚ) (h : ℚ) (force2 : Bool)
    (methodFor : Nat → Option GradMethod) (variances : Bool) (y0v : List ℚ) (q : QNodeState)
    (hdim : dim = (evOps q).length)
    (hwires : wireChecksOk q = true)
    (hF : ∀ g ob, (F g ob).isSome) :
    ∀ ws : List Nat, (∀ k ∈ ws, methodFor k = some GradMethod.F) →
      jacobian_cols F F2 piHalf kw dim params h 1 force2 methodFor variances (some y0v) ws q =
        (q, some (ws.map (fdCol1 F kw q params h y0v)), ws.flatMap (fdTrace1 q params h)) := by
  subst hdim
  intro ws
  induction ws with
  | nil =>
    intro _
    rfl
  | cons k rest ih =>
    intro hmeth
    have hrest := ih (fun j hj => hmeth j (List.mem_cons_of_mem k hj))
    cases hlk : lookupVarOps q k with
    | none =>
      have hcol : fdCol1 F kw q params h y0v k = vzero (evOps q).length := by
        simp [fdCol1, hlk]
      have htr : fdTrace1 q params h k = [] := by
        simp [fdTrace1, hlk]
      simp only [jacobian_cols, hlk, Option.isNone_none, if_true, hrest, List.map_cons,
        List.flatMap_cons, hcol, htr]
      rfl
    | some sites =>
      obtain ⟨y, hy⟩ := Option.isSome_iff_exists.1
        (qnodeEvaluate_isSome F kw q (params.set k (params.getD k 0 + h)) hwires hF)
      have hcol : fdCol1 F kw q params h y0v k = vscale (1 / h) (vsub y y0v) := by
        unfold fdCol1
        rw [hlk, hy]
        rfl
      have htr : fdTrace1 q params h k = [params.set k (params.getD k 0 + h)] := by
        unfold fdTrace1
        rw [hlk]
        rfl
      have hpd : pd_finite_diff F kw q params k h 1 (some y0v)
          = (some (vscale (1 / h) (vsub y y0v)), [params.set k (params.getD k 0 + h)]) := by
        unfold pd_finite_diff
        rw [if_pos (show ((1 : Nat) == 1) = true from rfl)]
        simp only [hy]
      simp only [jacobian_cols, hlk, Option.isNone_some, Bool.false_eq_true, if_false,
        hmeth k (List.mem_cons_self k rest), hpd, hrest, List.map_cons,
        List.flatMap_cons, hcol, htr]
      rfl

/-- The Jacobian column loop when every requested slot uses the
finite-difference method at order 2: each used slot contributes the central
difference at `± h/2`. -/
theorem jacobian_cols_fd_order2 (F : DeviceFun) (F2 : Order2Fun) (piHalf : ℚ) (kw : KwFun)
    (dim : Nat) (params : List ℚ) (h : ℚ) (force2 : Bool)
    (methodFor : Nat → Option GradMethod) (variances : Bool) (y0 : Option (List ℚ))
    (q : QNodeState)
    (hdim : dim = (evOps q).length)
    (hwires : wireChecksOk q = true)
    (hF : ∀ g ob, (F g ob).isSome) :
    ∀ ws : List Nat, (∀ k ∈ ws, methodFor k = some GradMethod.F) →
      jacobian_cols F F2 piHalf kw dim params h 2 force2 methodFor variances y0 ws q =
        (q, some (ws.map (fdCol2 F kw q params h)), ws.flatMap (fdTrace2 q params h)) := by
  subst hdim
  intro ws
  induction ws with
  | nil =>
    intro _
    rfl
  | cons k rest ih =>
    intro hmeth
    have hrest := ih (fun j hj => hmeth j (List.mem_cons_of_mem k hj))
    cases hlk : lookupVarOps q k with
    | none =>
      have hcol : fdCol2 F kw q params h k = vzero (evOps q).length := by
        simp [fdCol2, hlk]
      have htr : fdTrace2 q params h k = [] := by
        simp [fdTrace2, hlk]
      simp only [jacobian_cols, hlk, Option.isNone_none, if_true, hrest, List.map_cons,
        List.flatMap_cons, hcol, htr]
      rfl
    | some sites =>
      obtain ⟨y2, hy2⟩ := Option.isSome_iff_exists.1
        (qnodeEvaluate_isSome F kw q (params.set k (params.getD k 0 + h / 2)) hwires hF)
      obtain ⟨y1, hy1⟩ := Option.isSome_iff_exists.1
        (qnodeEvaluate_isSome F kw q (params.set k (params.getD k 0 - h / 2)) hwires hF)
      have hcol : fdCol2 F kw q params h k = vscale (1 / h) (vsub y2 y1) := by
        unfold fdCol2
        rw [hlk, hy2, hy1]
        rfl
      have htr : fdTrace2 q params h k
          = [params.set k (params.getD k 0 + h / 2), params.set k (params.getD k 0 - h / 2)] := by
        unfold fdTrace2
        rw [hlk]
        rfl
      have hpd : pd_finite_diff F kw q params k h 2 y0
          = (some (vscale (1 / h) (vsub y2 y1)),
             [params.set k (params.getD k 0 + h / 2), params.set k (params.getD k 0 - h / 2)]) := by
        unfold pd_finite_diff
        rw [if_neg (show ¬(((2 : Nat) == 1) = true) from by decide),
          if_pos (show ((2 : Nat) == 2) = true from rfl)]
        simp only [hy2, hy1]
      simp only [jacobian_cols, hlk, Option.isNone_some, Bool.false_eq_true, if_false,
        hmeth k (List.mem_cons_self k rest), hpd, hrest, List.map_cons,
        List.flatMap_cons, hcol, htr]
      rfl

/-- The Jacobian column loop at an unsupported finite-difference order
raises `ValueError` as soon as a used slot is reached. -/
theorem jacobian_cols_fd_bad_order (F : DeviceFun) (F2 : Order2Fun) (piHalf : ℚ) (kw : KwFun)
    (dim : Nat) (params : List ℚ) (h : ℚ) (order : Nat) (force2 : Bool)
    (methodFor : Nat → Option GradMethod) (variances : Bool) (y0 : Option (List ℚ))
    (q : QNodeState)
    (ho1 : order ≠ 1) (ho2 : order ≠ 2) :
    ∀ ws : List Nat, (∀ k ∈ ws, methodFor k = some GradMethod.F) →
      (∃ k ∈ ws, (lookupVarOps q k).isSome = true) →
      (jacobian_cols F F2 piHalf kw dim params h order force2 methodFor variances y0
        ws q).2.1 = none := by
  intro ws
  induction ws with
  | nil =>
    intro _ hex
    obtain ⟨k, hk, _⟩ := hex
    cases hk
  | cons k rest ih =>
    intro hmeth hex
    have horder1 : (order == 1) = false := by
      simp [ho1]
    have horder2 : (order == 2) = false := by
      simp [ho2]
    cases hlk : lookupVarOps q k with
    | none =>
      have hextail : ∃ j ∈ rest, (lookupVarOps q j).isSome = true := by
        obtain ⟨j, hj, hsome⟩ := hex
        rcases List.mem_cons.1 hj with hjk | hjr
        · subst hjk
          rw [hlk] at hsome
          cases hsome
        · exact ⟨j, hjr, hsome⟩
      have hrest := ih (fun j hj => hmeth j (List.mem_cons_of_mem k hj)) hextail
      simp only [jacobian_cols, hlk, Option.isNone_none, if_true]
      cases hrec : jacobian_cols F F2 piHalf kw dim params h order force2 methodFor variances
          y0 rest q with
      | mk q' rt =>
        obtain ⟨r, tr⟩ := rt
        rw [hrec] at hrest
        simp at hrest
        simp [hrest]
    | some sites =>
      simp only [jacobian_cols, hlk, Option.isNone_some, Bool.false_eq_true, if_false,
        hmeth k (List.mem_cons_self k rest), pd_finite_diff, horder1, horder2]

/-- C6: for the slots differentiated by the finite-difference method, at
order 1 every used slot's column is `(y - y₀)/h` with `y₀` the unshifted
value, evaluated exactly once per `jacobian` call and reused across all
columns (the unshifted point occurs exactly once in the evaluation trace);
at order 2 the column is the central difference at `± h/2`; any other order
raises `ValueError` as soon as a used slot is differentiated. -/
theorem C6_finite_difference_columns (F : DeviceFun) (F2 : Order2Fun) (piHalf : ℚ)
    (kw : KwFun) (q : QNodeState) (params : List ℚ) (h : ℚ) (force2 : Bool) (ws : List Nat)
    (hns : (evOps q).any (fun e => e.return_type == some ReturnType.sample) = false)
    (hne : ws.isEmpty = false)
    (hmax : maxNat ws < q.num_variables)
    (hdup : hasDupWire ws = false)
    (hnone : ws.any (fun k => lookupGrad q k == some none) = false)
    (hwires : wireChecksOk q = true)
    (hF : ∀ g ob, (F g ob).isSome)
    (hlen : params.length = q.num_variables)
    (hh : h ≠ 0) :
    jacobian F F2 piHalf kw q params (some ws) JMethod.F h 1 force2 =
      (q, some (ws.map (fdCol1 F kw q params h ((qnodeEvaluate F kw q params).getD []))),
        params :: ws.flatMap (fdTrace1 q params h)) ∧
    (params :: ws.flatMap (fdTrace1 q params h)).count params = 1 ∧
    jacobian F F2 piHalf kw q params (some ws) JMethod.F h 2 force2 =
      (q, some (ws.map (fdCol2 F kw q params h)), ws.flatMap (fdTrace2 q params h)) ∧
    (∀ order, order ≠ 1 → order ≠ 2 → (∃ k ∈ ws, (lookupVarOps q k).isSome = true) →
      (jacobian F F2 piHalf kw q params (some ws) JMethod.F h order force2).2.1 = none) := by
  have hbad : (ws.isEmpty || decide (q.num_variables ≤ maxNat ws) || hasDupWire ws) = false := by
    rw [hne, hdup, decide_eq_false (Nat.not_le.2 hmax)]
    rfl
  obtain ⟨y0v, hy0⟩ := Option.isSome_iff_exists.1 (qnodeEvaluate_isSome F kw q params hwires hF)
  have hcount : (params :: ws.flatMap (fdTrace1 q params h)).count params = 1 := by
    rw [List.count_cons]
    have hzero : (ws.flatMap (fdTrace1 q params h)).count params = 0 := by
      rw [List.count_eq_zero]
      intro hmem
      rw [List.mem_flatMap] at hmem
      obtain ⟨k, hk, hmem2⟩ := hmem
      unfold fdTrace1 at hmem2
      by_cases hsk : (lookupVarOps q k).isSome = true
      · rw [if_pos hsk] at hmem2
        have heq : params = params.set k (params.getD k 0 + h) := List.mem_singleton.1 hmem2
        have hklen : k < params.length := by
          have hle := le_maxNat ws k hk
          omega
        have h1 : params[k]? = some params[k] := List.getElem?_eq_getElem hklen
        have h2 : (params.set k (params.getD k 0 + h))[k]? = some (params.getD k 0 + h) :=
          List.getElem?_set_self hklen
        rw [← heq, h1] at h2
        have h3 : params[k] = params.getD k 0 + h := Option.some.inj h2
        have h4 : params.getD k 0 = params[k] := by
          rw [List.getD_eq_getElem?_getD, h1]
          rfl
        rw [h4] at h3
        apply hh
        linarith
      · rw [if_neg hsk] at hmem2
        cases hmem2
    rw [hzero]
    simp
  have hFA : (JMethod.F == JMethod.A) = false := rfl
  have hdec : decide (q.num_variables ≤ maxNat ws) = false :=
    decide_eq_false (Nat.not_le.2 hmax)
  have hmeths : ∀ k ∈ ws, (fun _ => some GradMethod.F : Nat → Option GradMethod) k
      = some GradMethod.F := fun _ _ => rfl
  refine ⟨?_, hcount, ?_, ?_⟩
  · unfold jacobian
    simp only [hns, Bool.false_eq_true, if_false, hnone, hFA, Bool.false_and, hne,
      Bool.not_false, hy0, hdec, hdup, Bool.false_or, Bool.or_false, Bool.true_and,
      show ((1 : Nat) == 1) = true from rfl, if_true]
    rw [jacobian_cols_fd_order1 F F2 piHalf kw ((evOps q).length) params h force2 _ _ y0v q
      rfl hwires hF ws hmeths]
    simp only [Option.getD_some]
  · unfold jacobian
    simp only [hns, Bool.false_eq_true, if_false, hnone, hFA, Bool.false_and, hne,
      Bool.not_false, hdec, hdup, Bool.false_or, Bool.or_false, Bool.true_and,
      show ((2 : Nat) == 1) = false from rfl]
    rw [jacobian_cols_fd_order2 F F2 piHalf kw ((evOps q).length) params h force2 _ _ none q
      rfl hwires hF ws hmeths]
  · intro order ho1 ho2 hex
    have hbeq1 : (order == 1) = false := beq_eq_false_iff_ne.2 ho1
    unfold jacobian
    simp only [hns, Bool.false_eq_true, if_false, hnone, hFA, Bool.false_and, hne,
      Bool.not_false, hdec, hdup, Bool.false_or, Bool.or_false, Bool.true_and, hbeq1,
      Bool.and_false]
    exact jacobian_cols_fd_bad_order F F2 piHalf kw ((evOps q).length) params h order force2
      _ _ none q ho1 ho2 ws hmeths hex

/-- C6 witness: the finite-difference Jacobian of `RX(θ, 0); return ⟨Z₀⟩` at
`θ = 0`, `h = 1` on the parameter-sum device. -/
theorem C6_witness :
    wireChecksOk qC6 = true ∧
    (jacobian FsumPar F2none 2 kw0 qC6 [0] (some [0]) JMethod.F 1 1 false =
      (qC6, some ([0].map (fdCol1 FsumPar kw0 qC6 [0] 1
        ((qnodeEvaluate FsumPar kw0 qC6 [0]).getD []))),
        ([0] : List ℚ) :: [0].flatMap (fdTrace1 qC6 [0] 1)) ∧
     (([0] : List ℚ) :: [0].flatMap (fdTrace1 qC6 [0] 1)).count [0] = 1 ∧
     jacobian FsumPar F2none 2 kw0 qC6 [0] (some [0]) JMethod.F 1 2 false =
      (qC6, some ([0].map (fdCol2 FsumPar kw0 qC6 [0] 1)), [0].flatMap (fdTrace2 qC6 [0] 1)) ∧
     (∀ order, order ≠ 1 → order ≠ 2 → (∃ k ∈ [0], (lookupVarOps qC6 k).isSome = true) →
       (jacobian FsumPar F2none 2 kw0 qC6 [0] (some [0]) JMethod.F 1 order false).2.1
         = none)) :=
  ⟨by decide,
   C6_finite_difference_columns FsumPar F2none 2 kw0 qC6 [0] 1 false [0]
     (by decide) rfl (by decide) rfl (by decide) (by decide) (fun g ob => rfl) rfl
     one_ne_zero⟩

/-- C1: on the node `RX(θ,0); return ⟨Z₀⟩`, when the device raises during the
first shifted evaluation inside `QNode._pd_analytic`, the call propagates the
error with the gate's parameter still bound to the temporary `Variable` of
index `num_variables` — the substitution is not restored on the error exit
(there is no `try/finally` around qnode.py lines 813-890), contradicting the
restoration invariant the claim states. -/
theorem C1_substitution_not_restored_on_error :
    pd_analytic Ffail F2none 2 kw0 qC1 [0] 0 false =
      ({ qC1 with ops := [opRXsub, obsZ0] }, none, [[0, 2]]) ∧
    opRXsub.params = [Param.var ⟨qC1.num_variables, none, 1⟩] ∧
    ({ qC1 with ops := [opRXsub, obsZ0] }).ops ≠ qC1.ops :=
  of_decide_eq_true (by with_unfolding_all rfl)

/-- C2: the claim's retrace condition (cache off, or flat length differs)
disagrees with the code: on a constructed node with caching off and a flat
argument length different from `num_variables` (here 2 vs 1), the code does
not retrace, while the claim requires a retrace. -/
theorem C2_counterexample :
    claimedRetraceCond false 1 (Nested.seq [Nested.leaf 0, Nested.leaf 0]) = true ∧
    evaluate_retraces false false (some 1) (Nested.seq [Nested.leaf 0, Nested.leaf 0])
      = false := by
  exact ⟨rfl, rfl⟩

/-- C2 (amended): on a node whose construction has already run (`ops`
non-empty, `num_variables` recorded), a subsequent `evaluate` retraces iff
caching is disabled AND the flattened argument length equals
`num_variables`; a changed flat length suppresses reconstruction. -/
theorem C2_retrace_iff_uncached_and_same_length (cache : Bool) (n : Nat) (args : Nested) :
    evaluate_retraces false cache (some n) args = (!cache && (flatLen args == n)) := by
  cases cache <;> simp [evaluate_retraces]

/-- C7: during tracing, a non-observable operation raises
`QuantumFunctionError` when the observables buffer is non-empty; an
observable with a return type always goes to the observables buffer and an
observable without one always goes to the gate queue, without this error. -/
theorem C7_append_op_rules (queue ev : List Operation) (op : Operation) :
    (op.is_observable = false → ev ≠ [] → append_op queue ev op = none) ∧
    (op.is_observable = false → ev = [] → append_op queue ev op = some (queue ++ [op], ev)) ∧
    (op.is_observable = true → op.return_type = none →
      append_op queue ev op = some (queue ++ [op], ev)) ∧
    (op.is_observable = true → ∀ rt, op.return_type = some rt →
      append_op queue ev op = some (queue, ev ++ [op])) := by
  refine ⟨fun h1 h2 => ?_, fun h1 h2 => ?_, fun h1 h2 => ?_, fun h1 rt h2 => ?_⟩ <;>
    simp [append_op, h1, h2]

/-- C7 witness: a gate after a queued observable raises; a measured
observable goes to the observables buffer; an unmeasured observable goes to
the gate queue. -/
theorem C7_witness :
    append_op [] [obsZ0] opRX = none ∧
    append_op [] [] obsZ0 = some ([], [obsZ0]) ∧
    append_op [obsZ0] [] opRX = some ([obsZ0, opRX], []) :=
  ⟨(C7_append_op_rules [] [obsZ0] opRX).1 rfl (by simp),
   (C7_append_op_rules [] [] obsZ0).2.2.2 rfl ReturnType.expectation rfl,
   (C7_append_op_rules [obsZ0] [] opRX).2.1 rfl rfl⟩

/-- C8: `QNode.construct` accepts the builder's return value iff it is a
single measured observable equal to the whole observables buffer, or a
non-empty sequence of observables, all measured, equal to the buffer
elementwise and in order; a non-observable value, an empty sequence, a
missing return type, or any membership/order mismatch is rejected. -/
theorem C8_return_validation (ev : List Operation) (res : QfuncReturn) :
    (construct_validate ev res).isSome = claimedAccept ev res := by
  cases res with
  | other => rfl
  | single o =>
    simp only [construct_validate, claimedAccept]
    by_cases h1 : o.is_observable = true
    · rw [if_pos h1, h1]
      by_cases h2 : o.return_type = none
      · simp [h2]
      · by_cases h3 : ev = [o]
        · simp [h2, h3]
        · have h3' : ¬([o] = ev) := fun hh => h3 hh.symm
          simp [h2, h3, h3']
    · rw [if_neg h1, Bool.of_not_eq_true h1]
      simp
  | seq l =>
    simp only [construct_validate, claimedAccept]
    by_cases hc : (!l.isEmpty && l.all fun o => o.is_observable) = true
    · rw [if_pos hc]
      show (if (l.any fun o => o.return_type == none) = true then (none : Option (List Operation))
        else if (l == ev) = true then some l else none).isSome = _
      by_cases h2 : (l.any fun o => o.return_type == none) = true
      · rw [if_pos h2]
        simp only [List.any_eq_true, beq_iff_eq] at h2
        obtain ⟨o, ho, hrt⟩ := h2
        have : l.all (fun o => o.is_observable && o.return_type != none) = false := by
          rw [Bool.eq_false_iff]
          intro hall
          rw [List.all_eq_true] at hall
          have := hall o ho
          simp [hrt] at this
        simp [this]
      · rw [if_neg h2]
        rw [Bool.and_eq_true] at hc
        have hall : l.all (fun o => o.is_observable && o.return_type != none) = true := by
          rw [List.all_eq_true]
          intro o ho
          have h2o : (o.return_type == none) = false := by
            rw [Bool.eq_false_iff]
            intro hbeq
            exact h2 (List.any_eq_true.2 ⟨o, ho, hbeq⟩)
          have hobs : o.is_observable = true := (List.all_eq_true.1 hc.2) o ho
          simp [hobs, bne, h2o]
        rw [hall, hc.1]
        by_cases h3 : (l == ev) = true
        · rw [if_pos h3, h3]
          rfl
        · rw [if_neg h3, Bool.eq_false_iff.2 h3]
          rfl
    · rw [if_neg hc]
      show false = _
      symm
      rw [Bool.eq_false_iff]
      intro hclaim
      rw [Bool.and_eq_true, Bool.and_eq_true] at hclaim
      apply hc
      rw [Bool.and_eq_true]
      refine ⟨hclaim.1.1, ?_⟩
      rw [List.all_eq_true]
      intro o ho
      have := (List.all_eq_true.1 hclaim.1.2) o ho
      rw [Bool.and_eq_true] at this
      exact this.1

/-- C9: the construction context slot is exclusive — entering `construct`
while it is occupied raises `QuantumFunctionError` and leaves the slot
untouched — and when entry succeeds the slot is cleared again on every
control-flow exit of the builder (normal return or exception), by the
`try/finally`. -/
theorem C9_context_slot_exclusive_and_cleared {β : Type} (selfId : Nat) (build : Option β) :
    (∀ c, construct_context (some c) selfId build = (some c, none)) ∧
    construct_context (none : Option Nat) selfId build = (none, some build) :=
  ⟨fun _ => rfl, rfl⟩

/-- C10: the claim fails on the error path: when `apply` raises inside
`Device.execute`, the three queue fields remain set, so accessing
`op_queue` afterwards — outside any active `execute` call — succeeds
instead of raising `ValueError`. -/
theorem C10_counterexample :
    (device_execute hkFail deviceFresh [ropX] [] []).2 = none ∧
    ¬ outsideAccessRaises (device_execute hkFail deviceFresh [ropX] [] []).1 ∧
    op_queue_access (device_execute hkFail deviceFresh [ropX] [] []).1 = some [ropX] := by
  refine ⟨by decide, ?_, by decide⟩
  intro h
  have := h.1
  revert this
  decide

/-- C10 (amended): the queue properties raise `ValueError` on a fresh device,
and every *successful* `execute` resets all three fields to `None` before
returning; an `execute` that raises after setting them leaves them set. -/
theorem C10_queue_lifecycle :
    outsideAccessRaises deviceFresh ∧
    ∀ (hk : DeviceHooks) (st : DeviceState) (queue obs : List ResolvedOp)
      (pars : List (Nat × List (Nat × Nat))) (st' : DeviceState) (res : List MeasResult),
      device_execute hk st queue obs pars = (st', some res) → outsideAccessRaises st' := by
  constructor
  · exact ⟨rfl, rfl, rfl⟩
  · intro hk st queue obs pars st' res hrun
    unfold device_execute at hrun
    by_cases hcv : check_validity hk queue obs
    · rw [if_neg (by simp [hcv])] at hrun
      cases happ : applyAll hk queue with
      | none => rw [happ] at hrun; cases hrun
      | some u =>
        rw [happ] at hrun
        cases hms : measureAll hk obs with
        | none => rw [hms] at hrun; cases hrun
        | some rs =>
          rw [hms] at hrun
          cases hrun
          exact ⟨rfl, rfl, rfl⟩
    · rw [if_pos (by simp [Bool.of_not_eq_true hcv])] at hrun
      cases hrun

/-- C10 witness: a successful `execute` on a fresh device resets the fields,
so access raises afterwards. -/
theorem C10_witness :
    device_execute hkOk deviceFresh [ropX] [] [] = (deviceFresh, some []) ∧
    outsideAccessRaises deviceFresh :=
  ⟨by decide,
   C10_queue_lifecycle.2 hkOk deviceFresh [ropX] [] [] deviceFresh [] (by decide)⟩

/-- C5: the claim's iff-characterization fails on the code: on the CV tape
`Displacement(θ₀, θ₁, 0); return ⟨PolyXP₀⟩` (an order-2 expectation
downstream), selecting the method for slot 0 marks the gate `'A2'` in place;
the later query for slot 1 then sees hint `'A2'`, so slot 1 selects `finite`
although every operation it depends on is analytically differentiable per the
claim's own degradation rules. -/
theorem C5_counterexample :
    ¬ claimC5 [opD, obsX2] vopsC5 ∧
    (compute_grad_methods [opD, obsX2] vopsC5).1 =
      [(0, some GradMethod.A), (1, some GradMethod.F)] ∧
    claimed_best_method [opD, obsX2] [(0, 1)] = some GradMethod.A := by
  unfold claimC5
  exact of_decide_eq_true (by with_unfolding_all rfl)

/-- Pointwise-equal predicates agree on `all`. -/
theorem all_fun_congr {α : Type} (l : List α) (p q : α → Bool) (h : ∀ a, p a = q a) :
    l.all p = l.all q := by
  induction l with
  | nil => rfl
  | cons a t ih => simp [h, ih]

/-- `scanEvSuccessors` reads only `shadowGM`-invariant fields. -/
theorem scanEv_congr : ∀ (l' l : List Operation), l'.map shadowGM = l.map shadowGM →
    ∀ b, scanEvSuccessors l' b = scanEvSuccessors l b := by
  intro l'
  induction l' with
  | nil =>
    intro l h b
    cases l with
    | nil => rfl
    | cons a t => cases h
  | cons a' t' ih =>
    intro l h b
    cases l with
    | nil => cases h
    | cons a t =>
      rw [List.map_cons, List.map_cons] at h
      injection h with h1 h2
      have hev0 := congrArg Operation.ev_order h1
      have hrt0 := congrArg Operation.return_type h1
      have hev : a'.ev_order = a.ev_order := hev0
      have hrt : a'.return_type = a.return_type := hrt0
      unfold scanEvSuccessors
      rw [hev, hrt, ih t h2 true, ih t h2 b]

/-- Filtering by a `shadowGM`-invariant predicate commutes with taking
`shadowGM` images. -/
theorem map_shadow_filter (f : Operation → Operation) (p : Operation → Bool)
    (hp : ∀ x, p (f x) = p x) (l : List Operation) :
    (l.filter p).map f = (l.map f).filter p := by
  induction l with
  | nil => rfl
  | cons a t ih =>
    by_cases hpa : p a = true
    · rw [List.filter_cons_of_pos hpa, List.map_cons, List.map_cons,
        List.filter_cons_of_pos (by rw [hp]; exact hpa), ih]
    · rw [List.filter_cons_of_neg hpa, List.map_cons,
        List.filter_cons_of_neg (by rw [hp]; exact hpa), ih]

/-- The non-observable successors have equal `shadowGM` images on tapes with
equal `shadowGM` images. -/
theorem op_successors_G_shadow (l' l : List Operation)
    (h : l'.map shadowGM = l.map shadowGM) (o : Nat) :
    (op_successors_G l' o).map shadowGM = (op_successors_G l o).map shadowGM := by
  unfold op_successors_G
  rw [map_shadow_filter shadowGM (fun x => !x.is_observable) (fun x => rfl),
    map_shadow_filter shadowGM (fun x => !x.is_observable) (fun x => rfl),
    List.map_drop, List.map_drop, h]

/-- The observable successors have equal `shadowGM` images on tapes with
equal `shadowGM` images. -/
theorem op_successors_E_shadow (l' l : List Operation)
    (h : l'.map shadowGM = l.map shadowGM) (o : Nat) :
    (op_successors_E l' o).map shadowGM = (op_successors_E l o).map shadowGM := by
  unfold op_successors_E
  rw [map_shadow_filter shadowGM (fun x => x.is_observable) (fun x => rfl),
    map_shadow_filter shadowGM (fun x => x.is_observable) (fun x => rfl),
    List.map_drop, List.map_drop, h]

/-- A `shadowGM`-invariant `all` agrees on tapes with equal `shadowGM`
images. -/
theorem all_shadow_congr (p : Operation → Bool) (hp : ∀ x, p (shadowGM x) = p x)
    (l' l : List Operation) (h : l'.map shadowGM = l.map shadowGM) :
    l'.all p = l.all p := by
  have e1 := all_map_comp shadowGM p l'
  have e2 := all_map_comp shadowGM p l
  have c1 : l'.all (fun a => p (shadowGM a)) = l'.all p := all_fun_congr _ _ _ hp
  have c2 : l.all (fun a => p (shadowGM a)) = l.all p := all_fun_congr _ _ _ hp
  rw [← c1, ← e1, h, e2, c2]

/-- Unfolding equation of `best_for_op` at an in-range index, with the pair
matcher on the scan result resolved through structure eta. -/
theorem best_for_op_of_get (ops : List Operation) (o : Nat) (op : Operation)
    (hov : ops[o]? = some op) :
    best_for_op ops o =
      (if !op.is_cv then (op.grad_method, ops)
       else if op.grad_method == some GradMethod.A then
         if (op_successors_G ops o).all (fun x => x.supports_heisenberg) then
           ((scanEvSuccessors (op_successors_E ops o) false).1,
            if (scanEvSuccessors (op_successors_E ops o) false).2 then
              ops.set o { op with grad_method := some GradMethod.A2 }
            else ops)
         else (some GradMethod.F, ops)
       else (op.grad_method, ops)) := by
  unfold best_for_op
  rw [hov]

/-- Unfolding equation of `best_for_op` at an out-of-range index. -/
theorem best_for_op_of_none (ops : List Operation) (o : Nat)
    (hov : ops[o]? = none) : best_for_op ops o = (none, ops) := by
  unfold best_for_op
  rw [hov]

/-- Unfolding equation of `claimed_op_method` at an in-range index. -/
theorem claimed_op_method_of_get (ops : List Operation) (o : Nat) (op : Operation)
    (hov : ops[o]? = some op) :
    claimed_op_method ops o =
      (if !op.is_cv then op.grad_method
       else if op.grad_method == some GradMethod.A then
         if (op_successors_G ops o).all (fun x => x.supports_heisenberg)
             && !(op_successors_E ops o).any (fun x => x.ev_order == none)
             && !(op_successors_E ops o).any
                 (fun x => x.ev_order == some 2
                   && x.return_type == some ReturnType.variance) then
           some GradMethod.A
         else some GradMethod.F
       else op.grad_method) := by
  unfold claimed_op_method
  rw [hov]

/-- Unfolding equation of `claimed_op_method` at an out-of-range index. -/
theorem claimed_op_method_of_none (ops : List Operation) (o : Nat)
    (hov : ops[o]? = none) : claimed_op_method ops o = none := by
  unfold claimed_op_method
  rw [hov]

/-- `best_for_op` returns the same method on a tape whose only differences
from the original are `'A2'` marks at other positions, and its own possible
`'A2'` mark keeps the tape inside that relation. -/
theorem best_for_op_congr (ops' ops : List Operation) (o : Nat)
    (hshadow : ops'.map shadowGM = ops.map shadowGM)
    (hget : ops'[o]? = ops[o]?) :
    (best_for_op ops' o).1 = (best_for_op ops o).1 ∧
    (best_for_op ops' o).2.map shadowGM = ops.map shadowGM ∧
    (∀ j, j ≠ o → (best_for_op ops' o).2[j]? = ops'[j]?) := by
  have hG := op_successors_G_shadow ops' ops hshadow o
  have hE := op_successors_E_shadow ops' ops hshadow o
  have hheis : (op_successors_G ops' o).all (fun x => x.supports_heisenberg)
      = (op_successors_G ops o).all (fun x => x.supports_heisenberg) :=
    all_shadow_congr (fun x => x.supports_heisenberg) (fun x => rfl) _ _ hG
  have hscan := scanEv_congr _ _ hE false
  cases hov : ops[o]? with
  | none =>
    have hov' : ops'[o]? = none := by rw [hget, hov]
    rw [best_for_op_of_none ops' o hov', best_for_op_of_none ops o hov]
    exact ⟨rfl, hshadow, fun j _ => rfl⟩
  | some op =>
    have hov' : ops'[o]? = some op := by rw [hget, hov]
    rw [best_for_op_of_get ops' o op hov', best_for_op_of_get ops o op hov, hheis, hscan]
    by_cases hcv : (!op.is_cv) = true
    · rw [if_pos hcv, if_pos hcv]
      exact ⟨rfl, hshadow, fun j _ => rfl⟩
    · rw [if_neg hcv, if_neg hcv]
      by_cases hgm : (op.grad_method == some GradMethod.A) = true
      · rw [if_pos hgm, if_pos hgm]
        by_cases hh : (op_successors_G ops o).all (fun x => x.supports_heisenberg) = true
        · rw [if_pos hh, if_pos hh]
          refine ⟨rfl, ?_, ?_⟩
          · show (if (scanEvSuccessors (op_successors_E ops o) false).2 = true then
                ops'.set o { op with grad_method := some GradMethod.A2 }
              else ops').map shadowGM = ops.map shadowGM
            cases hm : (scanEvSuccessors (op_successors_E ops o) false).2 with
            | false =>
              rw [if_neg Bool.false_ne_true]
              exact hshadow
            | true =>
              rw [if_pos rfl, List.map_set]
              have hs : (ops'.map shadowGM).set o (shadowGM { op with
                  grad_method := some GradMethod.A2 }) = ops'.map shadowGM := by
                apply set_of_getElem?
                rw [List.getElem?_map, hov']
                rfl
              rw [hs, hshadow]
          · intro j hj
            show (if (scanEvSuccessors (op_successors_E ops o) false).2 = true then
                ops'.set o { op with grad_method := some GradMethod.A2 }
              else ops')[j]? = ops'[j]?
            cases hm : (scanEvSuccessors (op_successors_E ops o) false).2 with
            | false =>
              rw [if_neg Bool.false_ne_true]
            | true =>
              rw [if_pos rfl]
              exact List.getElem?_set_ne (fun he => hj he.symm)
        · rw [if_neg hh, if_neg hh]
          exact ⟨rfl, hshadow, fun j _ => rfl⟩
      · rw [if_neg hgm, if_neg hgm]
        exact ⟨rfl, hshadow, fun j _ => rfl⟩

/-- The value of the `ev_successors` scan: `'F'` iff some observable has no
`ev_order` or is an order-2 variance, else `'A'`. -/
theorem scanEv_value (l : List Operation) : ∀ b, (scanEvSuccessors l b).1 =
    (if (l.any (fun x => x.ev_order == none)
        || l.any (fun x => x.ev_order == some 2
            && x.return_type == some ReturnType.variance)) = true
     then some GradMethod.F else some GradMethod.A) := by
  induction l with
  | nil =>
    intro b
    rfl
  | cons x xs ih =>
    intro b
    unfold scanEvSuccessors
    by_cases h1 : (x.ev_order == none) = true
    · simp [h1]
    · by_cases h2 : (x.ev_order == some 2) = true
      · by_cases h3 : (x.return_type == some ReturnType.variance) = true
        · simp [h1, h2, h3]
        · simp [h1, h2, h3, ih]
      · simp [h1, h2, ih]

/-- On the original descriptors, `best_for_op` computes exactly the per-op
method of claim C5. -/
theorem best_for_op_value (ops : List Operation) (o : Nat) :
    (best_for_op ops o).1 = claimed_op_method ops o := by
  cases hov : ops[o]? with
  | none => rw [best_for_op_of_none ops o hov, claimed_op_method_of_none ops o hov]
  | some op =>
    rw [best_for_op_of_get ops o op hov, claimed_op_method_of_get ops o op hov]
    by_cases hcv : (!op.is_cv) = true
    · rw [if_pos hcv, if_pos hcv]
    · rw [if_neg hcv, if_neg hcv]
      by_cases hgm : (op.grad_method == some GradMethod.A) = true
      · rw [if_pos hgm, if_pos hgm]
        by_cases hh : (op_successors_G ops o).all (fun x => x.supports_heisenberg) = true
        · rw [if_pos hh]
          show ((scanEvSuccessors (op_successors_E ops o) false).1,
              if (scanEvSuccessors (op_successors_E ops o) false).2 = true then
                ops.set o { op with grad_method := some GradMethod.A2 }
              else ops).1 = _
          rw [scanEv_value (op_successors_E ops o) false, hh]
          by_cases ha1 : ((op_successors_E ops o).any (fun x => x.ev_order == none)) = true
          · simp [ha1]
          · by_cases ha2 : ((op_successors_E ops o).any (fun x => x.ev_order == some 2
                && x.return_type == some ReturnType.variance)) = true
            · simp [ha1, ha2]
            · simp [ha1, ha2]
        · rw [if_neg hh]
          have hhf : ((op_successors_G ops o).all fun x => x.supports_heisenberg) = false :=
            Bool.of_not_eq_true hh
          simp [hhf]
      · rw [if_neg hgm, if_neg hgm]

/-- Unfolding equation of `bestPerOp` on a cons, with the pair matcher
resolved through structure eta. -/
theorem bestPerOp_cons (ops : List Operation) (s : Nat × Nat) (rest : List (Nat × Nat)) :
    bestPerOp ops (s :: rest) =
      ((best_for_op ops s.1).1 :: (bestPerOp (best_for_op ops s.1).2 rest).1,
       (bestPerOp (best_for_op ops s.1).2 rest).2) := rfl

/-- Unfolding equation of `compute_grad_methods` on a cons, with the pair
matchers resolved through structure eta. -/
theorem compute_grad_methods_cons (ops : List Operation) (kv : Nat × List (Nat × Nat))
    (rest : List (Nat × List (Nat × Nat))) :
    compute_grad_methods ops (kv :: rest) =
      ((kv.1, combineMethods (bestPerOp ops kv.2).1) ::
        (compute_grad_methods (bestPerOp ops kv.2).2 rest).1,
       (compute_grad_methods (bestPerOp ops kv.2).2 rest).2) := rfl

/-- The per-slot pass of `_best_method` under single consultation: the
methods are the claimed per-op methods and the tape stays within the
`shadowGM` relation, untouched outside the consulted indices. -/
theorem bestPerOp_single_use (ops : List Operation) :
    ∀ (sites : List (Nat × Nat)) (ops' : List Operation),
      ops'.map shadowGM = ops.map shadowGM →
      (∀ j ∈ sites.map (fun s => s.1), ops'[j]? = ops[j]?) →
      (sites.map (fun s => s.1)).Nodup →
      (bestPerOp ops' sites).1 = sites.map (fun s => claimed_op_method ops s.1) ∧
      (bestPerOp ops' sites).2.map shadowGM = ops.map shadowGM ∧
      (∀ j, j ∉ sites.map (fun s => s.1) → (bestPerOp ops' sites).2[j]? = ops'[j]?) := by
  intro sites
  induction sites with
  | nil =>
    intro ops' hshadow _ _
    exact ⟨rfl, hshadow, fun _ _ => rfl⟩
  | cons s rest ih =>
    intro ops' hshadow hget hnodup
    rw [List.map_cons, List.nodup_cons] at hnodup
    have hgets : ops'[s.1]? = ops[s.1]? :=
      hget s.1 (by rw [List.map_cons]; exact List.mem_cons_self _ _)
    obtain ⟨hval, hshadow2, huntouched⟩ := best_for_op_congr ops' ops s.1 hshadow hgets
    have hgetrest : ∀ j ∈ rest.map (fun s => s.1),
        (best_for_op ops' s.1).2[j]? = ops[j]? := by
      intro j hj
      have hne : j ≠ s.1 := fun he => hnodup.1 (he ▸ hj)
      rw [huntouched j hne]
      exact hget j (by rw [List.map_cons]; exact List.mem_cons_of_mem _ hj)
    obtain ⟨ihval, ihshadow, ihuntouched⟩ :=
      ih (best_for_op ops' s.1).2 hshadow2 hgetrest hnodup.2
    rw [bestPerOp_cons]
    refine ⟨?_, ihshadow, ?_⟩
    · show (best_for_op ops' s.1).1 :: (bestPerOp (best_for_op ops' s.1).2 rest).1 = _
      rw [List.map_cons, hval, best_for_op_value, ihval]
    · intro j hj
      rw [List.map_cons, List.mem_cons] at hj
      push_neg at hj
      show (bestPerOp (best_for_op ops' s.1).2 rest).2[j]? = ops'[j]?
      rw [ihuntouched j (fun hmem => hj.2 hmem), huntouched j hj.1]

/-- The selector dict comprehension under single consultation: every slot
gets the claimed method of claim C5, read off the original descriptors. -/
theorem compute_grad_methods_single_use (ops : List Operation) :
    ∀ (vops : List (Nat × List (Nat × Nat))) (ops' : List Operation),
      ops'.map shadowGM = ops.map shadowGM →
      (∀ j ∈ vops.flatMap (fun kv => kv.2.map (fun s => s.1)), ops'[j]? = ops[j]?) →
      (vops.flatMap (fun kv => kv.2.map (fun s => s.1))).Nodup →
      (compute_grad_methods ops' vops).1 =
        vops.map (fun kv => (kv.1, claimed_best_method ops kv.2)) := by
  intro vops
  induction vops with
  | nil =>
    intro ops' _ _ _
    rfl
  | cons kv rest ih =>
    intro ops' hshadow hget hnodup
    rw [List.flatMap_cons] at hget hnodup
    have hsplit := List.Nodup.of_append_left hnodup
    have hsplit2 := List.Nodup.of_append_right hnodup
    have hdisj := List.disjoint_of_nodup_append hnodup
    have hget1 : ∀ j ∈ kv.2.map (fun s => s.1), ops'[j]? = ops[j]? := by
      intro j hj
      exact hget j (List.mem_append_left _ hj)
    obtain ⟨hval, hshadow2, huntouched⟩ := bestPerOp_single_use ops kv.2 ops' hshadow
      hget1 hsplit
    have hgetrest : ∀ j ∈ rest.flatMap (fun kv => kv.2.map (fun s => s.1)),
        (bestPerOp ops' kv.2).2[j]? = ops[j]? := by
      intro j hj
      rw [huntouched j (fun hmem => hdisj hmem hj)]
      exact hget j (List.mem_append_right _ hj)
    have ihval := ih (bestPerOp ops' kv.2).2 hshadow2 hgetrest hsplit2
    rw [compute_grad_methods_cons]
    show (kv.1, combineMethods (bestPerOp ops' kv.2).1) ::
        (compute_grad_methods (bestPerOp ops' kv.2).2 rest).1 = _
    rw [List.map_cons, hval, ihval]
    rfl

/-- C5 (amended): provided no operation instance is consulted for more than
one use site across all slots, the selector computes, for every slot, `none`
iff some op touching the slot has claimed per-op method `none`, `analytic`
iff all have `analytic`, else `finite` — with the per-op method of a CV op
with hint `analytic` degraded to `finite` exactly under the three claimed
conditions.  (When an op is consulted again after an earlier consultation
marked it `'A2'`, the later slot degrades to `finite` instead, as the
counterexample shows.) -/
theorem C5_best_method_single_consultation (ops : List Operation)
    (vops : List (Nat × List (Nat × Nat)))
    (hnodup : (vops.flatMap (fun kv => kv.2.map (fun s => s.1))).Nodup) :
    (compute_grad_methods ops vops).1 =
      vops.map (fun kv => (kv.1, claimed_best_method ops kv.2)) :=
  compute_grad_methods_single_use ops vops ops rfl (fun _ _ => rfl) hnodup

/-- Setting an element below the drop index leaves the dropped suffix
unchanged. -/
theorem drop_set_lt {α : Type} (l : List α) (m n : Nat) (a : α) (h : m < n) :
    (l.set m a).drop n = l.drop n := by
  apply List.ext_getElem?
  intro j
  rw [List.getElem?_drop, List.getElem?_drop]
  exact List.getElem?_set_ne (by omega)

/-- Setting an element at or beyond the take index leaves the prefix
unchanged. -/
theorem take_set_ge {α : Type} (l : List α) (m n : Nat) (a : α) (h : n ≤ m) :
    (l.set m a).take n = l.take n := by
  apply List.ext_getElem?
  intro j
  rw [List.getElem?_take, List.getElem?_take]
  by_cases hj : j < n
  · rw [if_pos hj, if_pos hj]
    exact List.getElem?_set_ne (by omega)
  · rw [if_neg hj, if_neg hj]

/-- Taking at most the length of the left part of an append reads only the
left part. -/
theorem take_append_left_of_le {α : Type} (a b : List α) (n : Nat) (h : n ≤ a.length) :
    (a ++ b).take n = a.take n := by
  rw [List.take_append_eq_append_take, Nat.sub_eq_zero_of_le h, List.take_zero, List.append_nil]

/-- Reading back an in-range set position. -/
theorem getElem?_set_self_of_lt {α : Type} (l : List α) (n : Nat) (a : α) (h : n < l.length) :
    (l.set n a)[n]? = some a := by
  simp [List.getElem?_set_self, h]

/-- The `_pd_analytic_var` conversion loop on a qubit circuit whose variance
observables are all involutory: every variance is converted to an expectation
in place, `pdA2` ends as the zero vector when at least one variance was seen,
and no circuit evaluation happens. -/
theorem pdVarLoop_qubit_inv (F : DeviceFun) (F2 : Order2Fun) (piHalf : ℚ) (kw : KwFun)
    (free : List ℚ) (idx : Nat) (dim : Nat) :
    ∀ (evs : List Operation) (i : Nat) (q : QNodeState) (pdA2 : Option (List ℚ)),
      q.ctype = CircuitKind.qubit →
      evs.all varInvolutoryB = true →
      q.ops.drop (q.queue_len + i) = evs →
      pdVarLoop F F2 piHalf kw free idx false dim i evs q pdA2 =
        ({ q with ops := q.ops.take (q.queue_len + i) ++ evs.map convertVariancesOp },
         some (if evs.any (fun e => e.return_type == some ReturnType.variance)
               then some (vzero dim) else pdA2),
         []) := by
  intro evs
  induction evs with
  | nil =>
    intro i q pdA2 _ _ hsuf
    have hlen : q.ops.length ≤ q.queue_len + i := by
      have hc := congrArg List.length hsuf
      rw [List.length_drop] at hc
      simp at hc
      omega
    have htake : q.ops.take (q.queue_len + i) = q.ops := List.take_of_length_le hlen
    rw [htake]
    simp only [List.map_nil, List.append_nil, List.any_nil]
    rfl
  | cons e rest ih =>
    intro i q pdA2 hq hinv hsuf
    rw [List.all_cons, Bool.and_eq_true] at hinv
    have hlt : q.queue_len + i < q.ops.length := by
      have hc := congrArg List.length hsuf
      rw [List.length_drop] at hc
      simp at hc
      omega
    have hget : q.ops[q.queue_len + i]? = some e := by
      have h0 := congrArg (fun l => l[0]?) hsuf
      simp only [List.getElem?_drop] at h0
      simpa using h0
    have haddone : q.queue_len + (i + 1) = (q.queue_len + i) + 1 := by omega
    have hsufrest : q.ops.drop (q.queue_len + (i + 1)) = rest := by
      have ht := congrArg List.tail hsuf
      rw [List.tail_drop] at ht
      rw [haddone]
      exact ht
    unfold pdVarLoop
    by_cases hv : (e.return_type != some ReturnType.variance) = true
    · rw [if_pos hv, ih (i + 1) q pdA2 hq hinv.2 hsufrest]
      have hne : e.return_type ≠ some ReturnType.variance := bne_iff_ne.mp hv
      have hbe : (e.return_type == some ReturnType.variance) = false :=
        beq_eq_false_iff_ne.mpr hne
      have hconv : convertVariancesOp e = e := by
        unfold convertVariancesOp
        rw [hbe]
        rfl
      rw [haddone, List.take_succ, hget, List.map_cons, hconv, List.any_cons, hbe,
        Bool.false_or, List.append_assoc]
      rfl
    · have heq : e.return_type = some ReturnType.variance := by
        by_contra hc
        exact hv (bne_iff_ne.mpr hc)
      have hbe : (e.return_type == some ReturnType.variance) = true := beq_iff_eq.mpr heq
      have hconv : convertVariancesOp e = { e with return_type := some ReturnType.expectation } := by
        unfold convertVariancesOp
        rw [hbe]
        rfl
      have hqb : (q.ctype == CircuitKind.qubit) = true := by
        rw [hq]
        rfl
      have hsuf1 : (setEv q i { e with return_type := some ReturnType.expectation }).ops.drop
          ((setEv q i { e with return_type := some ReturnType.expectation }).queue_len
            + (i + 1)) = rest := by
        show (q.ops.set (q.queue_len + i) { e with return_type := some ReturnType.expectation
          }).drop (q.queue_len + (i + 1)) = rest
        rw [haddone,
          drop_set_lt q.ops (q.queue_len + i) (q.queue_len + i + 1) _ (by omega),
          ← haddone]
        exact hsufrest
      rw [if_neg hv, if_pos hqb]
      by_cases hherm : (e.name == "Hermitian") = true
      · have hinv1 := hinv.1
        have hnm : e.name = "Hermitian" := beq_iff_eq.mp hherm
        unfold varInvolutoryB at hinv1
        rw [heq, hnm] at hinv1
        simp only [bne_self_eq_false, Bool.false_or] at hinv1
        cases hmat : e.mat with
        | none =>
          rw [hmat] at hinv1
          simp at hinv1
        | some A =>
          rw [hmat] at hinv1
          simp only [] at hinv1
          have hA : (matMul A A == matId A.length) = true := by simpa using hinv1
          rw [if_pos hherm]
          simp only [hmat]
          rw [if_pos hA, ← hmat,
            ih (i + 1) (setEv q i { e with return_type := some ReturnType.expectation })
              (some (vzero dim)) hq hinv.2 hsuf1]
          simp only [setEv]
          rw [ite_self, haddone, List.take_succ,
            take_set_ge _ _ _ _ (Nat.le_refl _),
            getElem?_set_self_of_lt _ _ _ hlt,
            List.map_cons, hconv, List.any_cons, hbe, Bool.true_or, if_pos rfl,
            List.append_assoc]
          rfl
      · rw [if_neg hherm,
          ih (i + 1) (setEv q i { e with return_type := some ReturnType.expectation })
            (some (vzero dim)) hq hinv.2 hsuf1]
        simp only [setEv]
        rw [ite_self, haddone, List.take_succ,
          take_set_ge _ _ _ _ (Nat.le_refl _),
          getElem?_set_self_of_lt _ _ _ hlt,
          List.map_cons, hconv, List.any_cons, hbe, Bool.true_or, if_pos rfl,
          List.append_assoc]
        rfl

/-- `_pd_analytic_var` with the loop result, the unshifted evaluation and the
inner `_pd_analytic` call all resolved: the assembled column and the
`ev`-queue/cache restoration. -/
theorem pd_analytic_var_resolved (F : DeviceFun) (F2 : Order2Fun) (piHalf : ℚ) (kw : KwFun)
    (q qs q3 : QNodeState) (free : List ℚ) (idx : Nat) (force2 : Bool)
    (pdA2v evA pdA : List ℚ) (tr2 : List (List ℚ))
    (hloop : pdVarLoop F F2 piHalf kw free idx force2 (evOps q).length 0 (evOps q) q none
      = (qs, some (some pdA2v), []))
    (heva : qnodeEvaluate F kw { qs with cache := true } free = some evA)
    (hpd : pd_analytic F F2 piHalf kw { qs with cache := true } free idx force2
      = (q3, some pdA, tr2)) :
    pd_analytic_var F F2 piHalf kw q free idx force2 =
      ({ q3 with ops := q3.ops.take q3.queue_len ++ evOps q, cache := q.cache },
       some (whereVec ((evOps q).map (fun e => e.return_type == some ReturnType.variance))
         (vsub pdA2v (vscale 2 (vmul evA pdA))) pdA),
       [free] ++ tr2) := by
  unfold pd_analytic_var
  simp only [hloop]
  simp only [heva]
  simp only [hpd]
  rfl

/-- C4: the claim's per-position variance rule fails on the code: on the
qubit node `RG(θ, 0); return (var(Hermitian(M, 0)), var(Z₁))` with a
non-involutory `M`, the `pdA2` vector computed for the `Hermitian` position
is overwritten by the later variance iteration (qnode.py lines 912-962 keep
only the last assignment to `pdA2`), so the assembled column is `[0, 0]`
while the claim's per-position formula gives `[2, 0]`. -/
theorem C4_counterexample :
    (pd_analytic_var FsumPar F2none 2 kw0 qC4 [0] 0 false).2.1 ≠
      some (claimedVarColumnC4 FsumPar kw0 2 qC4 [0] 0 [(0, 0)]) ∧
    (pd_analytic_var FsumPar F2none 2 kw0 qC4 [0] 0 false).2.1 = some [0, 0] ∧
    claimedVarColumnC4 FsumPar kw0 2 qC4 [0] 0 [(0, 0)] = [2, 0] :=
  of_decide_eq_true (by with_unfolding_all rfl)

/-- C4 (amended): on a qubit circuit whose variance observables are all
involutory (`A² = I`), with at least one variance, the analytic variance
column for a slot is assembled per observable — `−2·⟨A⟩·∂⟨A⟩/∂θ` at variance
positions (`∂⟨A²⟩/∂θ = 0`) and the plain parameter-shift derivative at
expectation positions, with `⟨A⟩` one unshifted evaluation of the circuit
with every variance converted to an expectation — and the tape and cache
flag are restored.  (With a non-involutory `Hermitian` variance the code
overwrites its `∂⟨A²⟩/∂θ` on every later variance iteration, as the
counterexample shows.) -/
theorem C4_variance_rule_involutory (F : DeviceFun) (F2 : Order2Fun) (piHalf : ℚ)
    (kw : KwFun) (q : QNodeState) (free : List ℚ) (idx : Nat) (sites : List (Nat × Nat))
    (hq : q.ctype = CircuitKind.qubit)
    (hqlen : q.queue_len ≤ q.ops.length)
    (hinv : (evOps q).all varInvolutoryB = true)
    (hvar : (evOps q).any (fun e => e.return_type == some ReturnType.variance) = true)
    (hsites : lookupVarOps (convertVariances q) idx = some sites)
    (hvalid : sites.all (validSiteB (convertVariances q) idx) = true)
    (hA2 : sites.all (siteNotA2 (convertVariances q)) = true)
    (hbound : varsBoundedB (convertVariances q) = true)
    (hfree : free.length = q.num_variables)
    (hwires : wireChecksOk (convertVariances q) = true)
    (hF : ∀ g ob, (F g ob).isSome) :
    pd_analytic_var F F2 piHalf kw q free idx false =
      (q, some (claimedVarColumn F kw piHalf q free idx sites),
        [free] ++ sites.flatMap (fun s =>
          [sitePlusArgs piHalf (convertVariances q) free idx s,
           siteMinusArgs piHalf (convertVariances q) free idx s])) := by
  have hloop : pdVarLoop F F2 piHalf kw free idx false (evOps q).length 0 (evOps q) q none
      = (convertVariances q, some (some (vzero (evOps q).length)), []) := by
    rw [pdVarLoop_qubit_inv F F2 piHalf kw free idx (evOps q).length (evOps q) 0 q none
      hq hinv rfl, if_pos hvar]
    rfl
  have hevS : (qnodeEvaluate F kw
      ({ convertVariances q with cache := true } : QNodeState) free).isSome := by
    apply qnodeEvaluate_isSome
    · exact hwires
    · exact hF
  obtain ⟨evA, hevA⟩ := Option.isSome_iff_exists.mp hevS
  have hpd := C3_pd_analytic_is_parameter_shift_sum F F2 piHalf kw
    ({ convertVariances q with cache := true } : QNodeState) free idx sites
    hsites hvalid hA2 hbound hfree hwires hF
  rw [pd_analytic_var_resolved F F2 piHalf kw q (convertVariances q)
    ({ convertVariances q with cache := true } : QNodeState) free idx false
    (vzero (evOps q).length) evA
    (psDeriv F kw piHalf ({ convertVariances q with cache := true } : QNodeState) free idx sites)
    (sites.flatMap (fun s =>
      [sitePlusArgs piHalf ({ convertVariances q with cache := true } : QNodeState) free idx s,
       siteMinusArgs piHalf ({ convertVariances q with cache := true } : QNodeState) free idx s]))
    hloop hevA hpd]
  have hops : ({ convertVariances q with cache := true } : QNodeState).ops.take
      ({ convertVariances q with cache := true } : QNodeState).queue_len ++ evOps q = q.ops := by
    show (q.ops.take q.queue_len ++ (q.ops.drop q.queue_len).map convertVariancesOp).take
      q.queue_len ++ q.ops.drop q.queue_len = q.ops
    rw [take_append_left_of_le _ _ _ (by rw [List.length_take]; omega),
      List.take_take, min_self, List.take_append_drop]
  rw [hops]
  have hevA2 : qnodeEvaluate F kw (convertVariances q) free = some evA := hevA
  unfold claimedVarColumn
  rw [hevA2]
  rfl

/-- C4 witness: the involutory variance rule on the node
`RG(θ, 0); return var(Z₀)` at `θ = 0` on the parameter-sum device. -/
theorem C4_witness :
    qC4w.ctype = CircuitKind.qubit ∧
    (evOps qC4w).all varInvolutoryB = true ∧
    pd_analytic_var FsumPar F2none 2 kw0 qC4w [0] 0 false =
      (qC4w, some (claimedVarColumn FsumPar kw0 2 qC4w [0] 0 [(0, 0)]),
        [[0]] ++ [(0, 0)].flatMap (fun s =>
          [sitePlusArgs 2 (convertVariances qC4w) [0] 0 s,
           siteMinusArgs 2 (convertVariances qC4w) [0] 0 s])) :=
  ⟨rfl, by decide,
    C4_variance_rule_involutory FsumPar F2none 2 kw0 qC4w [0] 0 [(0, 0)] rfl (by decide)
      (by decide) (by decide) (by decide) (by decide) (by decide) (by decide) rfl (by decide)
      (fun g ob => rfl)⟩

/-- C5 witness: on the tape `[Displacement, ⟨PolyXP⟩]` with slot 0 at the
single use site `(0,0)`, the selector yields the claimed analytic method. -/
theorem C5_witness :
    (vopsC5w.flatMap (fun kv => kv.2.map (fun s => s.1))).Nodup ∧
    (compute_grad_methods [opD, obsX2] vopsC5w).1 =
      vopsC5w.map (fun kv => (kv.1, claimed_best_method [opD, obsX2] kv.2)) :=
  ⟨by decide, C5_best_method_single_consultation [opD, obsX2] vopsC5w (by decide)⟩

end PL
